import Mathlib

/-!
Verification of the api-broker-prototype event-sourced API broker.

This file gives a shallow embedding, in Lean, of the parts of the Go source
that the checked properties talk about:

* the per-request attempt bookkeeping of the request processor
  (`broker/main.go`: `requestState`, `requestData`, `newRequestData`,
  `NextAttempt`, `Succeeded`, `State`, and the event handling loop of
  `ProcessRequests`),
* the result events emitted by `startApiCall` (`broker/main.go`),
* the timeout decorator's configuration handling
  (`broker/timeout_decorator.go`, `FollowEvents`),
* the MongoDB event store's `Insert` (`mongodb/mongodb-eventstore.go`)
  together with `findNextID`, `uuidAsDBValue` and `dbValueAsUUID`,
* the PostgreSQL event store's `Insert` (`postgresql/eventstore.go`).

Machine integers (`int32`, `uint`) are modelled as `Int`/`Nat`; none of the
proved properties exercises overflow.  `float64` configuration values are
modelled as `ℚ`: the only float operations the embedded code performs are
sign comparisons and multiplication by the constant `time.Second`, which are
exact in the relevant range (the sub-nanosecond truncation of Go's
`time.Duration` conversion is not observable by any property below).
Go slices become `List`s, Go maps become association lists, and Go panics
(out-of-range indexing, failing type assertions) become `Option.none`.
-/

namespace ApiBroker

/-! ## Event taxonomy (broker/events.go, events/events.go)

One closed sum covers the event classes the broker and the stores handle:
`simple`, `configuration`, `request`, `api-request`, `api-response`,
`api-failure`, `api-timeout`.  `ConfigurationEvent` carries
`Retries int32` and `Timeout float64`. -/

inductive BrokerEvent where
  | simple (message : String)
  | configuration (retries : Int) (timeout : ℚ)
  | request (payload : String)
  | apiRequest (attempt : Nat)
  | apiResponse (attempt : Nat) (response : String)
  | apiFailure (attempt : Nat) (failure : String)
  | apiTimeout (attempt : Nat)
  deriving DecidableEq, Repr

/-- `Event.Class()` — the stable textual class tag of each event kind. -/
def BrokerEvent.cls : BrokerEvent → String
  | .simple _ => "simple"
  | .configuration _ _ => "configuration"
  | .request _ => "request"
  | .apiRequest _ => "api-request"
  | .apiResponse _ _ => "api-response"
  | .apiFailure _ _ => "api-failure"
  | .apiTimeout _ => "api-timeout"

/-- The envelope metadata the processor reads: `ID()`, `CausationID()`,
`Event()`.  (`Created()` is only logged by the embedded code paths.) -/
structure SysEnvelope where
  id : Int
  causationID : Int
  event : BrokerEvent
  deriving DecidableEq, Repr

/-! ## Request state (broker/main.go) -/

/-- `requestState` of broker/main.go (`state_initial` is the zero value). -/
inductive requestState where
  | initial
  | pending
  | success
  | failure
  | timeout
  deriving DecidableEq, Repr

def isInitial : requestState → Bool
  | .initial => true
  | _ => false

def isSuccess : requestState → Bool
  | .success => true
  | _ => false

/-- `requestData` of broker/main.go: the request's envelope plus one state
slot per attempt. -/
structure requestData where
  envelope : SysEnvelope
  attempts : List requestState
  deriving DecidableEq, Repr

/-- `newRequestData`: `make([]requestState, retries+1)` zero-initialises the
slots, i.e. fills them with `state_initial`. -/
def newRequestData (request : SysEnvelope) (retries : Nat) : requestData :=
  { envelope := request, attempts := List.replicate (retries + 1) .initial }

/-- `requestData.Retries()`: `uint(len(request.attempts) - 1)`. -/
def requestData.retriesOf (d : requestData) : Nat :=
  d.attempts.length - 1

/-- `requestData.Succeeded()`: scan for a `state_success` slot. -/
def succeeded (d : requestData) : Bool :=
  d.attempts.any isSuccess

/-- Loop body of `requestData.NextAttempt()`: count slots until the first
`state_initial` one (the loop `break`s there). -/
def nextAttemptAux : List requestState → Nat
  | [] => 0
  | v :: rest => if isInitial v then 0 else nextAttemptAux rest + 1

/-- `requestData.NextAttempt()`. -/
def nextAttempt (d : requestData) : Nat :=
  nextAttemptAux d.attempts

/-- Loop of `requestData.State()`: `res` starts as `state_pending`;
`state_initial` returns `state_pending` at once, `state_success` returns at
once, the temporary states are stored in `res` and the scan continues. -/
def stateAux (res : requestState) : List requestState → requestState
  | [] => res
  | v :: rest =>
    match v with
    | .initial => .pending
    | .success => .success
    | .pending => stateAux .pending rest
    | .failure => stateAux .failure rest
    | .timeout => stateAux .timeout rest

/-- `requestData.State()`. -/
def requestDataState (d : requestData) : requestState :=
  stateAux .pending d.attempts

/-! ## Spec-side readings of the derived values

These two definitions follow the specification's wording, to be compared
with the functions translated from the source. -/

/-- Modelled from the spec: "`overall_state`: scan slots left-to-right; as
soon as a slot is `Initial`, return `Pending`; if any `Success` is seen,
return `Success`; otherwise the last non-`Initial` value wins". -/
def overallStateSpec (l : List requestState) : requestState :=
  match l.find? (fun v => isInitial v || isSuccess v) with
  | some v => if isInitial v then .pending else .success
  | none => (l.filter (fun v => !isInitial v)).getLastD .pending

/-- Modelled from the spec: "`next_attempt` = count of non-`Initial` slots". -/
def nextAttemptSpec (l : List requestState) : Nat :=
  (l.filter (fun v => !isInitial v)).length

/-! ## The request processor (broker/main.go, `ProcessRequests`)

The processor's mutable state is the current `retries` budget, the current
`timeout` (nanoseconds; initialised to `5 * time.Second` and only ever
logged afterwards) and the map from request event id to `requestData`.
The map is an association list whose most recent binding wins, matching
Go's map assignment.  `handleEvent` is the body of the `for envelope :=
range ch` loop; its second result lists the events the body inserts
synchronously into the store (the `APIRequest` markers emitted through
`startApiCall`), each with its causation id.  Go panics (out-of-range slice
access, the `RequestEvent` type assertion in `requestData.Event()`) are
modelled as `none`. -/

structure ProcState where
  retries : Nat
  timeout : ℚ
  requests : List (Int × requestData)
  deriving DecidableEq, Repr

def lookupReq (m : List (Int × requestData)) (k : Int) : Option requestData :=
  List.lookup k m

/-- Replace the binding of key `k` (in Go the handlers mutate the
`*requestData` in place). -/
def updReq (m : List (Int × requestData)) (k : Int) (d : requestData) :
    List (Int × requestData) :=
  m.map (fun p => if p.1 = k then (k, d) else p)

/-- One iteration of the `ProcessRequests` event loop. -/
def handleEvent (s : ProcState) (env : SysEnvelope) :
    Option (ProcState × List (BrokerEvent × Int)) :=
  match env.event with
  | .simple _ => some (s, [])
  | .configuration r t =>
    some ({ s with
            retries := if 0 ≤ r then r.toNat else s.retries,
            timeout := if 0 ≤ t then t * 1000000000 else s.timeout }, [])
  | .request _ =>
    let d := newRequestData env s.retries
    some ({ s with requests := (env.id, d) :: s.requests },
      [(.apiRequest (nextAttempt d), env.id)])
  | .apiRequest a =>
    if env.causationID = 0 then some (s, [])
    else
      match lookupReq s.requests env.causationID with
      | none => some (s, [])
      | some d =>
        if a < d.attempts.length then
          let d1 : requestData := { d with attempts := d.attempts.set a .pending }
          some ({ s with requests := updReq s.requests env.causationID d1 }, [])
        else none
  | .apiResponse a _ =>
    if env.causationID = 0 then some (s, [])
    else
      match lookupReq s.requests env.causationID with
      | none => some (s, [])
      | some d =>
        if a < d.attempts.length then
          let d1 : requestData := { d with attempts := d.attempts.set a .success }
          some ({ s with requests := updReq s.requests env.causationID d1 }, [])
        else none
  | .apiFailure a _ =>
    if env.causationID = 0 then some (s, [])
    else
      match lookupReq s.requests env.causationID with
      | none => some (s, [])
      | some d =>
        if a < d.attempts.length then
          let d1 : requestData := { d with attempts := d.attempts.set a .failure }
          let s1 : ProcState :=
            { s with requests := updReq s.requests env.causationID d1 }
          if a = d1.retriesOf then some (s1, [])
          else if a + 1 ≠ nextAttempt d1 then some (s1, [])
          else if succeeded d1 then some (s1, [])
          else
            match d1.envelope.event with
            | .request _ => some (s1, [(.apiRequest (nextAttempt d1), d1.envelope.id)])
            | _ => none
        else none
  | .apiTimeout a =>
    if env.causationID = 0 then some (s, [])
    else
      match lookupReq s.requests env.causationID with
      | none => some (s, [])
      | some d =>
        if h : a < d.attempts.length then
          if d.attempts.get ⟨a, h⟩ ≠ .pending then some (s, [])
          else
            let d1 : requestData := { d with attempts := d.attempts.set a .timeout }
            let s1 : ProcState :=
              { s with requests := updReq s.requests env.causationID d1 }
            if a = d1.retriesOf then some (s1, [])
            else if a + 1 ≠ nextAttempt d1 then some (s1, [])
            else if succeeded d1 then some (s1, [])
            else
              match d1.envelope.event with
              | .request _ => some (s1, [(.apiRequest (nextAttempt d1), d1.envelope.id)])
              | _ => none
        else none

/-! ## Result events of an upstream call (broker/main.go, `startApiCall`)

The detached goroutine of `startApiCall` receives the mock API's
`(response, err)` pair and inserts at most one event: `APIResponse` when a
response body is present, otherwise `APIFailure` when an error is present,
otherwise nothing (only a log line). -/

def apiCallResultEvents (attempt : Nat) (causationID : Int)
    (response : Option String) (err : Option String) : List (BrokerEvent × Int) :=
  match response with
  | some body => [(.apiResponse attempt body, causationID)]
  | none =>
    match err with
    | some msg => [(.apiFailure attempt msg, causationID)]
    | none => []

/-! ## The timeout decorator (broker/timeout_decorator.go)

The decorator keeps one `*time.Duration` (here `Option ℚ`, nanoseconds).
Its `FollowEvents` pass-through updates it on every `ConfigurationEvent`
crossing the stream: `config.Timeout > 0` stores
`time.Duration(float64(time.Second) * config.Timeout)`, every other value
resets the timeout to `nil`. -/

def decoratorFollowStep (cur : Option ℚ) (e : BrokerEvent) : Option ℚ :=
  match e with
  | .configuration _ t => if 0 < t then some (1000000000 * t) else none
  | _ => cur

/-- The four event kinds whose handling updates a slot of the attempts
vector. -/
def isAttemptUpdateEvent : BrokerEvent → Bool
  | .apiRequest _ => true
  | .apiResponse _ _ => true
  | .apiFailure _ _ => true
  | .apiTimeout _ => true
  | _ => false

/-! ## The MongoDB event store (mongodb/mongodb-eventstore.go)

`uuid.UUID` is modelled as `Nat` with `0` for `uuid.Nil`.  The store keeps
the `events` collection and the capped `notifications` collection.
`InsertOne` fails with a duplicate-key write exception either on the `_id_`
index or on the `unique_external_uuid_constraint` partial index (null
`external_uuid` values are exempt); otherwise it appends the document.
`Insert` draws an id from `findNextID`, then loops: only an `_id_`
collision with a fresh id re-enters the loop, a UUID collision surfaces
`DuplicateEventUUID` at once, and a successful insert is followed by one
notification insert.  The third component of the result counts the
`InsertOne` calls made. -/

def registeredClasses : List String :=
  ["configuration", "simple", "request", "api-request", "api-response",
   "api-failure", "api-timeout"]

/-- `NewEventStore` registers one codec per event class; `Insert` and the
readers look the codec up by the class tag. -/
def hasCodec (tag : String) : Bool := registeredClasses.contains tag

/-- `mongoDBRawEnvelope`: the document written to the events collection
(the serialised payload is kept as the event value; the codecs are
bijective and total on the registered classes). -/
structure MongoRawEnvelope where
  id : Int
  externalUUID : Option Nat
  created : Int
  causationID : Int
  tag : String
  payload : BrokerEvent
  deriving DecidableEq, Repr

/-- `mongoDBEnvelope`: the envelope handed back to the caller. -/
structure MongoEnvelope where
  id : Int
  externalUUID : Nat
  created : Int
  causationID : Int
  event : BrokerEvent
  deriving DecidableEq, Repr

structure MongoState where
  events : List MongoRawEnvelope
  notes : List Int
  deriving DecidableEq, Repr

/-- `uuidAsDBValue`: the nil UUID is stored as BSON `null` so the partial
uniqueness index ignores it. -/
def uuidAsDBValue (val : Nat) : Option Nat := if val = 0 then none else some val

/-- `dbValueAsUUID`: inverse direction. -/
def dbValueAsUUID (val : Option Nat) : Nat := val.getD 0

def maxEventID (l : List MongoRawEnvelope) : Int :=
  l.foldr (fun e acc => max e.id acc) 0

/-- `findNextID`: largest stored id plus one; `1` on an empty collection. -/
def findNextID (st : MongoState) : Int :=
  if st.events.isEmpty then 1 else maxEventID st.events + 1

inductive InsertOneResult where
  | inserted (id : Int)
  | dupID
  | dupUUID
  deriving DecidableEq, Repr

def uuidTaken (st : MongoState) (u : Option Nat) : Bool :=
  match u with
  | none => false
  | some v => st.events.any (fun e => e.externalUUID = some v)

/-- One `InsertOne` against the events collection. -/
def insertOne (st : MongoState) (env : MongoRawEnvelope) :
    InsertOneResult × MongoState :=
  if st.events.any (fun e => e.id = env.id) then (.dupID, st)
  else if uuidTaken st env.externalUUID then (.dupUUID, st)
  else (.inserted env.id, { st with events := st.events ++ [env] })

inductive StoreError where
  | duplicateEventUUID
  | missingCodec
  | storeFailure
  | uuidUnimplemented
  deriving DecidableEq, Repr

/-- The retry loop of `Insert`.  `fuel` bounds the iterations (the Go loop
is unbounded; in this single-writer model at most one iteration runs). -/
def insertLoop (fuel : Nat) (st : MongoState) (env : MongoRawEnvelope)
    (calls : Nat) : Except StoreError Int × MongoState × Nat :=
  match fuel with
  | 0 => (.error .storeFailure, st, calls)
  | fuel + 1 =>
    match insertOne st env with
    | (.inserted id, st1) =>
      if id = env.id then (.ok env.id, st1, calls + 1)
      else (.error .storeFailure, st1, calls + 1)
    | (.dupUUID, st1) => (.error .duplicateEventUUID, st1, calls + 1)
    | (.dupID, st1) =>
      let nid := findNextID st1
      if nid ≠ env.id then insertLoop fuel st1 { env with id := nid } (calls + 1)
      else (.error .storeFailure, st1, calls + 1)

/-- `MongoDBEventStore.Insert`. -/
def mongoInsert (st : MongoState) (externalUUID : Nat) (event : BrokerEvent)
    (causationID : Int) (now : Int) :
    Except StoreError MongoEnvelope × MongoState × Nat :=
  if hasCodec event.cls = false then (.error .missingCodec, st, 0)
  else
    let env0 : MongoRawEnvelope :=
      { id := findNextID st, externalUUID := uuidAsDBValue externalUUID,
        created := now, causationID := causationID, tag := event.cls,
        payload := event }
    match insertLoop (st.events.length + 2) st env0 0 with
    | (.error e, st1, n) => (.error e, st1, n)
    | (.ok id, st1, n) =>
      (.ok { id := id, externalUUID := dbValueAsUUID env0.externalUUID,
             created := now, causationID := causationID, event := event },
       { st1 with notes := st1.notes ++ [id] }, n)

/-! ## The PostgreSQL event store (postgresql/eventstore.go)

UUID support is not implemented: a non-nil external UUID is rejected, and
`postgreSQLEnvelope.ExternalUUID()` always returns `uuid.Nil`.  The id is
drawn from a database-side sequence. -/

structure PgRow where
  id : Int
  created : Int
  causationID : Int
  tag : String
  payload : BrokerEvent
  deriving DecidableEq, Repr

structure PgEnvelope where
  id : Int
  created : Int
  causationID : Int
  event : BrokerEvent
  deriving DecidableEq, Repr

/-- `postgreSQLEnvelope.ExternalUUID()` (TODO in the source): always nil. -/
def pgEnvelopeExternalUUID (_ : PgEnvelope) : Nat := 0

structure PgState where
  rows : List PgRow
  nextSeq : Int
  deriving DecidableEq, Repr

/-- `PostgreSQLEventStore.Insert`. -/
def pgInsert (st : PgState) (externalUUID : Nat) (event : BrokerEvent)
    (causationID : Int) (now : Int) : Except StoreError (PgState × PgEnvelope) :=
  if externalUUID ≠ 0 then .error .uuidUnimplemented
  else if hasCodec event.cls = false then .error .missingCodec
  else
    .ok ({ rows := st.rows ++ [⟨st.nextSeq, now, causationID, event.cls, event⟩],
           nextSeq := st.nextSeq + 1 },
      { id := st.nextSeq, created := now, causationID := causationID,
        event := event })

/-! ## Closed-loop system semantics for `ProcessRequests`

The processor's follow loop is composed with the log it reads.  The log is
the totally ordered list of envelopes; ids equal position + 1.  A system
step is either an envelope appended by the environment (the ingress, the
timeout decorator's timer task or an upstream goroutine — anything except
the processor) or the processor consuming the next unread log entry, in
which case the events its handler inserts synchronously are appended to
the log.  Environment inserts are constrained by `envOk`: only the
processor dispatches `APIRequest` events, and a result or timeout event
for `(r, a)` can only appear once the `APIRequest` for `(r, a)` is in the
log (the upstream goroutine and the timeout timer both start from that
insert). -/

structure SysState where
  proc : ProcState
  log : List SysEnvelope
  processed : Nat
  deriving DecidableEq, Repr

/-- `ProcessRequests` starts with `retries := 0`, `timeout := 5s`, an
empty request map, and reads the log from the beginning. -/
def initialSys : SysState := ⟨⟨0, 5 * 1000000000, []⟩, [], 0⟩

def appendInserts (log : List SysEnvelope) :
    List (BrokerEvent × Int) → List SysEnvelope
  | [] => log
  | (e, caus) :: rest =>
    appendInserts (log ++ [⟨(log.length : Int) + 1, caus, e⟩]) rest

inductive SysStep where
  | envInsert (e : BrokerEvent) (caus : Int)
  | procStep
  deriving DecidableEq, Repr

def doStep (st : SysState) : SysStep → Option SysState
  | .envInsert e caus =>
    some { st with log := st.log ++ [⟨(st.log.length : Int) + 1, caus, e⟩] }
  | .procStep =>
    match st.log.get? st.processed with
    | none => some st
    | some env =>
      match handleEvent st.proc env with
      | none => none
      | some (p, outs) =>
        some { proc := p, log := appendInserts st.log outs,
               processed := st.processed + 1 }

def runSteps : SysState → List SysStep → Option SysState
  | st, [] => some st
  | st, stp :: rest =>
    match doStep st stp with
    | none => none
    | some st1 => runSteps st1 rest

def isApiRequestFor (r : Int) (a : Nat) (env : SysEnvelope) : Bool :=
  env.causationID == r &&
    match env.event with
    | .apiRequest b => a == b
    | _ => false

/-- Guard on environment inserts (see the section comment). -/
def envOk (st : SysState) (e : BrokerEvent) (caus : Int) : Bool :=
  match e with
  | .apiRequest _ => false
  | .apiResponse a _ => caus != 0 && st.log.any (isApiRequestFor caus a)
  | .apiFailure a _ => caus != 0 && st.log.any (isApiRequestFor caus a)
  | .apiTimeout a => caus != 0 && st.log.any (isApiRequestFor caus a)
  | _ => true

def envValidB : SysState → List SysStep → Bool
  | _, [] => true
  | st, stp :: rest =>
    (match stp with
     | .envInsert e caus => envOk st e caus
     | .procStep => true) &&
    (match doStep st stp with
     | none => true
     | some st1 => envValidB st1 rest)

def isApiRequestEnv (r : Int) (env : SysEnvelope) : Bool :=
  env.causationID == r &&
    match env.event with
    | .apiRequest _ => true
    | _ => false

/-- The processor has consumed every `APIRequest` for request `r` that is
in the log. -/
def caughtUpFor (st : SysState) (r : Int) : Bool :=
  (st.log.drop st.processed).all (fun env => !isApiRequestEnv r env)

/-- Lag condition of the amended C5: whenever the processor is about to
consume an `APIFailure` or `APITimeout` for request `r`, it has already
consumed every `APIRequest` it dispatched for `r`. -/
def caughtUpNow (st : SysState) : Bool :=
  match st.log.get? st.processed with
  | none => true
  | some env =>
    match env.event with
    | .apiFailure _ _ => caughtUpFor st env.causationID
    | .apiTimeout _ => caughtUpFor st env.causationID
    | _ => true

def caughtUpB : SysState → List SysStep → Bool
  | _, [] => true
  | st, stp :: rest =>
    (match stp with
     | .envInsert _ _ => true
     | .procStep => caughtUpNow st) &&
    (match doStep st stp with
     | none => true
     | some st1 => caughtUpB st1 rest)

/-- The attempt indices of the `APIRequest` events dispatched for request
`r`, in log order. -/
def apiRequestAttempts (log : List SysEnvelope) (r : Int) : List Nat :=
  log.filterMap (fun env =>
    match env.event with
    | .apiRequest a => if env.causationID = r then some a else none
    | _ => none)

/-- The environment step sequence of the C5 counterexample: configure one
retry, submit a request, let the processor dispatch and start attempt 0,
then let the attempt's timeout event land in the log immediately followed
by its (slow) failure result, and let the processor consume both. -/
def cexSteps : List SysStep :=
  [.envInsert (.configuration 1 5) 0, .procStep,
   .envInsert (.request "x") 0, .procStep, .procStep,
   .envInsert (.apiTimeout 0) 2, .envInsert (.apiFailure 0 "err") 2,
   .procStep, .procStep]

/-! ## Helper lemmas for the dispatch-order invariant -/

/-- Number of `APIRequest` events for `r` the processor has consumed. -/
def processedApiReqs (st : SysState) (r : Int) : Nat :=
  (apiRequestAttempts (st.log.take st.processed) r).length

def triggerAttempt : BrokerEvent → Option Nat
  | .apiResponse a _ => some a
  | .apiFailure a _ => some a
  | .apiTimeout a => some a
  | _ => none

/-- Per-request part of the dispatch invariant: the dispatched attempt
indices for `r` form the initial range `0, 1, …`, never more than the
request's slot count, and the non-`Initial` slots are exactly the attempts
whose `APIRequest` event the processor has consumed. -/
structure ReqInv (st : SysState) (r : Int) (d : requestData) : Prop where
  key_eq : d.envelope.id = r
  key_req : ∃ p, d.envelope.event = .request p
  len_pos : 0 < d.attempts.length
  disp : apiRequestAttempts st.log r =
    List.range (apiRequestAttempts st.log r).length
  disp_le : (apiRequestAttempts st.log r).length ≤ d.attempts.length
  attempts_iff : ∀ i (h : i < d.attempts.length),
    (d.attempts.get ⟨i, h⟩ ≠ .initial ↔ i < processedApiReqs st r)

/-- Global invariant of the closed-loop system. -/
structure SysInv (st : SysState) : Prop where
  proc_le : st.processed ≤ st.log.length
  ids : ∀ i (h : i < st.log.length), (st.log.get ⟨i, h⟩).id = (i : Int) + 1
  rec_inv : ∀ r d, lookupReq st.proc.requests r = some d → ReqInv st r d
  rec_key : ∀ r d, lookupReq st.proc.requests r = some d →
    0 < r ∧ r ≤ (st.processed : Int)
  req_located : ∀ i (h : i < st.log.length) (a : Nat),
    (st.log.get ⟨i, h⟩).event = .apiRequest a →
    (lookupReq st.proc.requests (st.log.get ⟨i, h⟩).causationID).isSome = true
  trigger_after : ∀ i (h : i < st.log.length) (a : Nat),
    triggerAttempt (st.log.get ⟨i, h⟩).event = some a →
    ∃ j, ∃ hj : j < st.log.length, j < i ∧
      isApiRequestFor (st.log.get ⟨i, h⟩).causationID a (st.log.get ⟨j, hj⟩) = true

/-- A lag-free environment trace: one configured retry, one request, one
failed attempt, one retry dispatched and consumed. -/
def wSteps : List SysStep :=
  [.envInsert (.configuration 1 5) 0, .procStep,
   .envInsert (.request "x") 0, .procStep, .procStep,
   .envInsert (.apiFailure 0 "e") 2, .procStep, .procStep]

/-- The state `wSteps` runs into. -/
def wFinal : SysState :=
  ⟨⟨1, 5 * 1000000000, [(2, ⟨⟨2, 0, .request "x"⟩, [.failure, .pending]⟩)]⟩,
   [⟨1, 0, .configuration 1 5⟩, ⟨2, 0, .request "x"⟩, ⟨3, 2, .apiRequest 0⟩,
    ⟨4, 2, .apiFailure 0 "e"⟩, ⟨5, 2, .apiRequest 1⟩],
   5⟩

/-! ## Characterisation lemmas for the derived values -/

theorem stateAux_characterisation (l : List requestState) : ∀ res : requestState,
    stateAux res l =
      match l.find? (fun v => isInitial v || isSuccess v) with
      | some v => if isInitial v then .pending else .success
      | none => (l.filter (fun v => !isInitial v)).getLastD res := by
  induction l with
  | nil => intro res; rfl
  | cons v rest ih =>
    intro res
    cases v with
    | initial => rfl
    | success => rfl
    | pending =>
      show stateAux .pending rest = _
      rw [ih .pending, List.find?_cons_of_neg _ (by simp [isInitial, isSuccess]),
        List.filter_cons_of_pos (by simp [isInitial]), List.getLastD_cons]
    | failure =>
      show stateAux .failure rest = _
      rw [ih .failure, List.find?_cons_of_neg _ (by simp [isInitial, isSuccess]),
        List.filter_cons_of_pos (by simp [isInitial]), List.getLastD_cons]
    | timeout =>
      show stateAux .timeout rest = _
      rw [ih .timeout, List.find?_cons_of_neg _ (by simp [isInitial, isSuccess]),
        List.filter_cons_of_pos (by simp [isInitial]), List.getLastD_cons]

theorem nextAttemptAux_eq_takeWhile (l : List requestState) :
    nextAttemptAux l = (l.takeWhile (fun v => !isInitial v)).length := by
  induction l with
  | nil => rfl
  | cons v rest ih =>
    by_cases h : isInitial v
    · simp [nextAttemptAux, h, List.takeWhile]
    · simp only [nextAttemptAux, h, if_neg, List.takeWhile]
      simp [h, ih]

/-- C6: the overall state of a request scans the attempt slots left to
right: an `Initial` slot makes it return `Pending` at once, a `Success`
slot makes it return `Success` at once, and otherwise the last non-`Initial`
slot value is returned, so `Failure`/`Timeout` are reported only when no
`Initial` (unused) slot remains. -/
theorem overall_state_scan (d : requestData) :
    requestDataState d = overallStateSpec d.attempts ∧
      (requestDataState d = .failure ∨ requestDataState d = .timeout →
        ∀ v ∈ d.attempts, v ≠ .initial) := by
  constructor
  · exact stateAux_characterisation d.attempts .pending
  · intro hft v hv
    rw [show requestDataState d = stateAux .pending d.attempts from rfl,
      stateAux_characterisation d.attempts .pending] at hft
    rcases hfind : d.attempts.find? (fun v => isInitial v || isSuccess v) with _ | w
    · have := List.find?_eq_none.mp hfind v hv
      intro hinit
      simp [hinit, isInitial] at this
    · rw [hfind] at hft
      rcases hft with h | h <;> dsimp at h <;> split at h <;> simp_all

/-- Witness for `overall_state_scan` at a concrete attempt vector. -/
theorem overall_state_scan_witness :
    requestDataState ⟨⟨1, 0, .request "x"⟩, [.failure, .timeout]⟩ = .timeout ∧
      ∀ v ∈ [requestState.failure, requestState.timeout], v ≠ .initial := by
  have h := overall_state_scan ⟨⟨1, 0, .request "x"⟩, [.failure, .timeout]⟩
  exact ⟨by decide, h.2 (Or.inr (by decide))⟩

/-- C7 counterexample: `NextAttempt` stops counting at the first `Initial`
slot, so on the vector `[Initial, Pending]` it returns `0`, not the number
`1` of non-`Initial` slots claimed by the specification. -/
theorem next_attempt_count_counterexample :
    nextAttempt ⟨⟨1, 0, .request "x"⟩, [.initial, .pending]⟩ = 0 ∧
      nextAttemptSpec [.initial, .pending] = 1 ∧
      nextAttempt ⟨⟨1, 0, .request "x"⟩, [.initial, .pending]⟩ ≠
        nextAttemptSpec [.initial, .pending] := by
  decide

/-- C7 (amended): the derived `next_attempt` equals the length of the
maximal leading run of non-`Initial` slots (the scan breaks at the first
`Initial` slot); this coincides with the count of all non-`Initial` slots
exactly when those form a prefix. -/
theorem next_attempt_prefix_length (d : requestData) :
    nextAttempt d = (d.attempts.takeWhile (fun v => !isInitial v)).length :=
  nextAttemptAux_eq_takeWhile d.attempts

/-! ## Association-list lemmas for the request map -/

theorem lookupReq_updReq (m : List (Int × requestData)) (k r : Int) (v : requestData) :
    lookupReq (updReq m k v) r =
      if k = r then (lookupReq m r).map (fun _ => v) else lookupReq m r := by
  induction m with
  | nil =>
    by_cases h : k = r <;> simp [lookupReq, updReq, List.lookup, h]
  | cons p m ih =>
    obtain ⟨pk, pd⟩ := p
    simp only [updReq, List.map_cons] at *
    by_cases hk : pk = k
    · subst hk
      simp only [if_pos rfl]
      by_cases hr : pk = r
      · subst hr
        simp [lookupReq, List.lookup, ih]
      · have hbeq : (r == pk) = false := beq_false_of_ne (Ne.symm hr)
        rw [if_neg hr] at ih ⊢
        simp only [lookupReq, List.lookup, hbeq, cond_false]
        exact ih
    · simp only [if_neg hk]
      by_cases hr : pk = r
      · subst hr
        have hnk : ¬ k = pk := fun h => hk h.symm
        simp [lookupReq, List.lookup, if_neg hnk]
      · have hbeq : (r == pk) = false := beq_false_of_ne (Ne.symm hr)
        simp only [lookupReq, List.lookup, hbeq, cond_false]
        exact ih

/-! ## Local theorems about the event-loop body -/

/-- C2: an `APITimeout` for an attempt whose recorded state is no longer
`Pending` (a response or failure for it was already processed) leaves the
processor state completely unchanged, dispatches no new upstream attempt
and inserts no events. -/
theorem api_timeout_after_final_ignored (s : ProcState) (i r : Int) (a : Nat)
    (d : requestData) (hr : r ≠ 0) (hd : lookupReq s.requests r = some d)
    (h : a < d.attempts.length) (hp : d.attempts.get ⟨a, h⟩ ≠ .pending) :
    handleEvent s ⟨i, r, .apiTimeout a⟩ = some (s, []) := by
  unfold handleEvent
  simp only [if_neg hr, hd]
  rw [dif_pos h, if_pos hp]

/-- Witness for `api_timeout_after_final_ignored`. -/
theorem api_timeout_after_final_ignored_witness :
    handleEvent ⟨0, 5000000000, [(2, ⟨⟨2, 0, .request "x"⟩, [.failure, .initial]⟩)]⟩
        ⟨7, 2, .apiTimeout 0⟩ =
      some (⟨0, 5000000000, [(2, ⟨⟨2, 0, .request "x"⟩, [.failure, .initial]⟩)]⟩, []) :=
  api_timeout_after_final_ignored _ 7 2 0 ⟨⟨2, 0, .request "x"⟩, [.failure, .initial]⟩
    (by decide) (by decide) (by decide) (by decide)

/-- C3: consuming an `APIFailure` for attempt `a` of a located request first
records `Failure` in slot `a`, then stops without dispatching when the
attempt index equals the retry budget, otherwise stops when `a+1` differs
from the (recomputed) next attempt index, otherwise stops when some attempt
already succeeded, and only otherwise dispatches attempt `a+1` by inserting
an `APIRequest` with the same causation id. -/
theorem api_failure_transition (s : ProcState) (i r : Int) (a : Nat) (msg p : String)
    (d : requestData) (hr : r ≠ 0) (hd : lookupReq s.requests r = some d)
    (hreq : d.envelope.event = .request p) (hid : d.envelope.id = r)
    (h : a < d.attempts.length) :
    handleEvent s ⟨i, r, .apiFailure a msg⟩ =
      some ({ s with requests :=
                updReq s.requests r ⟨d.envelope, d.attempts.set a .failure⟩ },
        if a = d.attempts.length - 1 then []
        else if a + 1 ≠ nextAttemptAux (d.attempts.set a .failure) then []
        else if (d.attempts.set a .failure).any isSuccess then []
        else [(.apiRequest (a + 1), r)]) := by
  unfold handleEvent
  simp only [if_neg hr, hd, if_pos h]
  have hlen : (d.attempts.set a .failure).length = d.attempts.length := by simp
  simp only [requestData.retriesOf, nextAttempt, succeeded, hlen, hreq, hid]
  split_ifs with h1 h2 h3 <;> try rfl
  rw [not_not.mp h2]

/-- Witness for `api_failure_transition`: a failed first attempt with one
retry remaining dispatches attempt `1`. -/
theorem api_failure_transition_witness :
    handleEvent ⟨1, 5000000000, [(2, ⟨⟨2, 0, .request "x"⟩, [.pending, .initial]⟩)]⟩
        ⟨7, 2, .apiFailure 0 "net"⟩ =
      some (⟨1, 5000000000, [(2, ⟨⟨2, 0, .request "x"⟩, [.failure, .initial]⟩)]⟩,
        [(.apiRequest 1, 2)]) := by
  rw [api_failure_transition _ 7 2 0 "net" "x"
    ⟨⟨2, 0, .request "x"⟩, [.pending, .initial]⟩ (by decide) (by decide) (by decide)
    (by decide) (by decide)]
  decide

/-- C8: from the upstream call's `(response, err)` pair the goroutine of
`startApiCall` inserts exactly one `APIResponse` when a body is present,
exactly one `APIFailure` when only an error is present, and nothing in the
silent-failure case; never more than one event. -/
theorem api_call_result_cases (a : Nat) (c : Int) (resp err : Option String) :
    (∀ body, resp = some body →
        apiCallResultEvents a c resp err = [(.apiResponse a body, c)]) ∧
    (resp = none → ∀ msg, err = some msg →
        apiCallResultEvents a c resp err = [(.apiFailure a msg, c)]) ∧
    (resp = none → err = none → apiCallResultEvents a c resp err = []) ∧
    (apiCallResultEvents a c resp err).length ≤ 1 := by
  cases resp <;> cases err <;> simp [apiCallResultEvents]

/-- Witness for `api_call_result_cases` (silent failure emits nothing). -/
theorem api_call_result_cases_witness :
    apiCallResultEvents 0 2 none none = [] :=
  (api_call_result_cases 0 2 none none).2.2.1 rfl rfl

/-- C4: evaluation of the timeout decorator's configuration handling at a
negative timeout value.  A `Configuration` event with `Timeout = -1` (the
value the `configure` CLI command sends whenever only `--retries` is given)
does not leave a previously stored 5-second timeout unchanged: the `else`
branch of `FollowEvents` resets the stored timeout to `nil`, i.e. disables
it. -/
theorem decorator_negative_timeout_disables :
    decoratorFollowStep (some (5 * 1000000000)) (.configuration 3 (-1)) = none ∧
      (decoratorFollowStep (some (5 * 1000000000)) (.configuration 3 (-1)) ≠
        some (5 * 1000000000)) ∧
      decoratorFollowStep (some (5 * 1000000000)) (.configuration 3 0) = none ∧
      decoratorFollowStep (some (5 * 1000000000)) (.configuration 3 2) =
        some (2 * 1000000000) := by
  refine ⟨by norm_num [decoratorFollowStep], ?_,
    by norm_num [decoratorFollowStep], by norm_num [decoratorFollowStep]⟩
  have h : decoratorFollowStep (some (5 * 1000000000)) (.configuration 3 (-1)) = none := by
    norm_num [decoratorFollowStep]
  rw [h]
  simp

theorem some_pair_inj {A B : Type} {a c : A} {b d : B}
    (h : some (a, b) = some (c, d)) : a = c ∧ b = d := by
  cases h; exact ⟨rfl, rfl⟩

theorem handleEvent_requests_shape (s : ProcState) (env : SysEnvelope) (s1 : ProcState)
    (outs : List (BrokerEvent × Int)) (hkind : isAttemptUpdateEvent env.event = true)
    (hrun : handleEvent s env = some (s1, outs)) :
    s1.requests = s.requests ∨
      ∃ k dold dnew, lookupReq s.requests k = some dold ∧
        dnew.attempts.length = dold.attempts.length ∧
        s1.requests = updReq s.requests k dnew := by
  obtain ⟨i, c, e⟩ := env
  cases e
  case simple m => exact absurd hkind (by simp [isAttemptUpdateEvent])
  case configuration rr tt => exact absurd hkind (by simp [isAttemptUpdateEvent])
  case request p => exact absurd hkind (by simp [isAttemptUpdateEvent])
  case apiRequest a =>
    unfold handleEvent at hrun
    dsimp only at hrun
    by_cases hc : c = 0
    · rw [if_pos hc] at hrun
      exact Or.inl (by rw [← (some_pair_inj hrun).1])
    · rw [if_neg hc] at hrun
      rcases hl : lookupReq s.requests c with _ | d <;> rw [hl] at hrun <;>
        dsimp only at hrun
      · exact Or.inl (by rw [← (some_pair_inj hrun).1])
      · by_cases hb : a < d.attempts.length
        · rw [if_pos hb] at hrun
          exact Or.inr ⟨c, d, ⟨d.envelope, d.attempts.set a .pending⟩, hl, by simp,
            by rw [← (some_pair_inj hrun).1]⟩
        · rw [if_neg hb] at hrun
          exact absurd hrun (by simp)
  case apiResponse a b =>
    unfold handleEvent at hrun
    dsimp only at hrun
    by_cases hc : c = 0
    · rw [if_pos hc] at hrun
      exact Or.inl (by rw [← (some_pair_inj hrun).1])
    · rw [if_neg hc] at hrun
      rcases hl : lookupReq s.requests c with _ | d <;> rw [hl] at hrun <;>
        dsimp only at hrun
      · exact Or.inl (by rw [← (some_pair_inj hrun).1])
      · by_cases hb : a < d.attempts.length
        · rw [if_pos hb] at hrun
          exact Or.inr ⟨c, d, ⟨d.envelope, d.attempts.set a .success⟩, hl, by simp,
            by rw [← (some_pair_inj hrun).1]⟩
        · rw [if_neg hb] at hrun
          exact absurd hrun (by simp)
  case apiFailure a b =>
    unfold handleEvent at hrun
    dsimp only at hrun
    by_cases hc : c = 0
    · rw [if_pos hc] at hrun
      exact Or.inl (by rw [← (some_pair_inj hrun).1])
    · rw [if_neg hc] at hrun
      rcases hl : lookupReq s.requests c with _ | d <;> rw [hl] at hrun <;>
        dsimp only at hrun
      · exact Or.inl (by rw [← (some_pair_inj hrun).1])
      · by_cases hb : a < d.attempts.length
        · rw [if_pos hb] at hrun
          have hgoal : s1.requests =
              updReq s.requests c ⟨d.envelope, d.attempts.set a .failure⟩ := by
            split at hrun
            · rw [← (some_pair_inj hrun).1]
            · split at hrun
              · rw [← (some_pair_inj hrun).1]
              · split at hrun
                · rw [← (some_pair_inj hrun).1]
                · split at hrun
                  · rw [← (some_pair_inj hrun).1]
                  · exact absurd hrun (by simp)
          exact Or.inr ⟨c, d, ⟨d.envelope, d.attempts.set a .failure⟩, hl, by simp, hgoal⟩
        · rw [if_neg hb] at hrun
          exact absurd hrun (by simp)
  case apiTimeout a =>
    unfold handleEvent at hrun
    dsimp only at hrun
    by_cases hc : c = 0
    · rw [if_pos hc] at hrun
      exact Or.inl (by rw [← (some_pair_inj hrun).1])
    · rw [if_neg hc] at hrun
      rcases hl : lookupReq s.requests c with _ | d <;> rw [hl] at hrun <;>
        dsimp only at hrun
      · exact Or.inl (by rw [← (some_pair_inj hrun).1])
      · by_cases hb : a < d.attempts.length
        · rw [dif_pos hb] at hrun
          by_cases hp : d.attempts.get ⟨a, hb⟩ ≠ .pending
          · rw [if_pos hp] at hrun
            exact Or.inl (by rw [← (some_pair_inj hrun).1])
          · rw [if_neg hp] at hrun
            have hgoal : s1.requests =
                updReq s.requests c ⟨d.envelope, d.attempts.set a .timeout⟩ := by
              split at hrun
              · rw [← (some_pair_inj hrun).1]
              · split at hrun
                · rw [← (some_pair_inj hrun).1]
                · split at hrun
                  · rw [← (some_pair_inj hrun).1]
                  · split at hrun
                    · rw [← (some_pair_inj hrun).1]
                    · exact absurd hrun (by simp)
            exact Or.inr ⟨c, d, ⟨d.envelope, d.attempts.set a .timeout⟩, hl, by simp, hgoal⟩
        · rw [dif_neg hb] at hrun
          exact absurd hrun (by simp)

/-- C9: the attempt updates of the four API event handlers index the
attempts vector at the event's attempt field with no bounds check of their
own.  The vector is created with exactly `retries+1` slots and the handlers
never resize it, so the access succeeds exactly for attempt indices below
`retries+1` (i.e. at most the captured `retries`); a larger attempt index
makes the handler's update fail (Go: an out-of-range panic). -/
theorem attempts_indexing_bounds :
    (∀ (env : SysEnvelope) (retries : Nat),
        (newRequestData env retries).attempts.length = retries + 1) ∧
    (∀ (s : ProcState) (i r : Int) (a : Nat) (d : requestData) (b p : String),
        r ≠ 0 → lookupReq s.requests r = some d → d.envelope.event = .request p →
        (((handleEvent s ⟨i, r, .apiRequest a⟩).isSome ↔ a < d.attempts.length) ∧
         ((handleEvent s ⟨i, r, .apiResponse a b⟩).isSome ↔ a < d.attempts.length) ∧
         ((handleEvent s ⟨i, r, .apiFailure a b⟩).isSome ↔ a < d.attempts.length) ∧
         ((handleEvent s ⟨i, r, .apiTimeout a⟩).isSome ↔ a < d.attempts.length))) ∧
    (∀ (s : ProcState) (env : SysEnvelope) (s1 : ProcState)
        (outs : List (BrokerEvent × Int)) (r : Int) (d d1 : requestData),
        isAttemptUpdateEvent env.event = true →
        handleEvent s env = some (s1, outs) →
        lookupReq s.requests r = some d → lookupReq s1.requests r = some d1 →
        d1.attempts.length = d.attempts.length) := by
  refine ⟨fun env retries => by simp [newRequestData], ?_, ?_⟩
  · intro s i r a d b p hr hd hreq
    refine ⟨?_, ?_, ?_, ?_⟩
    · unfold handleEvent
      dsimp only
      simp only [if_neg hr, hd]
      constructor
      · intro hsome
        by_contra hb
        rw [if_neg hb] at hsome
        simp at hsome
      · intro hb
        rw [if_pos hb]
        simp
    · unfold handleEvent
      dsimp only
      simp only [if_neg hr, hd]
      constructor
      · intro hsome
        by_contra hb
        rw [if_neg hb] at hsome
        simp at hsome
      · intro hb
        rw [if_pos hb]
        simp
    · unfold handleEvent
      dsimp only
      simp only [if_neg hr, hd]
      constructor
      · intro hsome
        by_contra hb
        rw [if_neg hb] at hsome
        simp at hsome
      · intro hb
        rw [if_pos hb]
        split_ifs <;> simp [hreq]
    · unfold handleEvent
      dsimp only
      simp only [if_neg hr, hd]
      constructor
      · intro hsome
        by_contra hb
        rw [dif_neg hb] at hsome
        simp at hsome
      · intro hb
        rw [dif_pos hb]
        split_ifs <;> simp [hreq]
  · intro s env s1 outs r d d1 hkind hrun hd hd1
    rcases handleEvent_requests_shape s env s1 outs hkind hrun with
      h | ⟨k, dold, dnew, hk, hlen, hre⟩
    · rw [h, hd] at hd1
      cases hd1
      rfl
    · rw [hre, lookupReq_updReq] at hd1
      by_cases hkr : k = r
      · subst hkr
        rw [hd] at hk hd1
        cases hk
        simp only [Option.map_some] at hd1
        cases hd1
        exact hlen
      · rw [if_neg hkr, hd] at hd1
        cases hd1
        rfl

/-- Witness for `attempts_indexing_bounds`: a two-slot vector accepts
attempt index `1` and fails (would panic) on attempt index `2`. -/
theorem attempts_indexing_bounds_witness :
    (newRequestData ⟨2, 0, .request "x"⟩ 1).attempts.length = 1 + 1 ∧
      ((handleEvent ⟨1, 5000000000, [(2, ⟨⟨2, 0, .request "x"⟩, [.initial, .initial]⟩)]⟩
          ⟨7, 2, .apiRequest 1⟩).isSome ↔
        1 < 2) ∧
      ((handleEvent ⟨1, 5000000000, [(2, ⟨⟨2, 0, .request "x"⟩, [.initial, .initial]⟩)]⟩
          ⟨7, 2, .apiRequest 2⟩).isSome ↔
        2 < 2) := by
  refine ⟨attempts_indexing_bounds.1 ⟨2, 0, .request "x"⟩ 1, ?_, ?_⟩
  · exact (attempts_indexing_bounds.2.1
      ⟨1, 5000000000, [(2, ⟨⟨2, 0, .request "x"⟩, [.initial, .initial]⟩)]⟩ 7 2 1
      ⟨⟨2, 0, .request "x"⟩, [.initial, .initial]⟩ "b" "x" (by decide) (by decide)
      (by decide)).1
  · exact (attempts_indexing_bounds.2.1
      ⟨1, 5000000000, [(2, ⟨⟨2, 0, .request "x"⟩, [.initial, .initial]⟩)]⟩ 7 2 2
      ⟨⟨2, 0, .request "x"⟩, [.initial, .initial]⟩ "b" "x" (by decide) (by decide)
      (by decide)).1

/-! ## Store lemmas -/

theorem hasCodec_cls (e : BrokerEvent) : hasCodec e.cls = true := by
  cases e <;> rfl

theorem mem_le_maxEventID (l : List MongoRawEnvelope) (e : MongoRawEnvelope)
    (h : e ∈ l) : e.id ≤ maxEventID l := by
  induction l with
  | nil => cases h
  | cons x xs ih =>
    rcases List.mem_cons.mp h with rfl | h2
    · exact le_max_left _ _
    · exact le_trans (ih h2) (le_max_right _ _)

theorem findNextID_fresh (st : MongoState) :
    st.events.any (fun e => e.id = findNextID st) = false := by
  rcases hev : st.events with _ | ⟨x, xs⟩
  · simp
  · rw [List.any_eq_false]
    intro e he
    simp only [decide_eq_true_eq]
    intro heq
    have hmem : e ∈ st.events := by rw [hev]; exact he
    have hle := mem_le_maxEventID st.events e hmem
    rw [heq] at hle
    have : ¬ st.events.isEmpty := by rw [hev]; simp
    rw [findNextID, if_neg this] at hle
    omega

theorem uuid_roundtrip (u : Nat) : dbValueAsUUID (uuidAsDBValue u) = u := by
  by_cases h : u = 0 <;> simp [uuidAsDBValue, dbValueAsUUID, h]

/-- C1: an insert whose non-nil external UUID is already attached to a
stored event fails with the distinguished `DuplicateEventUUID` error after
exactly one `InsertOne` call (no internal retry; only an `_id_` collision
re-enters the loop), leaves the events collection untouched (so no id is
consumed and `findNextID` is unaffected) and inserts no notification. -/
theorem insert_duplicate_uuid (st : MongoState) (u : Nat) (ev : BrokerEvent)
    (caus now : Int) (hu : u ≠ 0)
    (htaken : st.events.any (fun e => e.externalUUID = some u) = true) :
    mongoInsert st u ev caus now = (.error .duplicateEventUUID, st, 1) ∧
      findNextID (mongoInsert st u ev caus now).2.1 = findNextID st ∧
      (mongoInsert st u ev caus now).2.1.notes = st.notes := by
  have hmain : mongoInsert st u ev caus now = (.error .duplicateEventUUID, st, 1) := by
    unfold mongoInsert
    rw [hasCodec_cls ev, if_neg (show ¬ (true = false) by decide)]
    unfold insertLoop
    dsimp only
    unfold insertOne
    dsimp only
    rw [findNextID_fresh st, if_neg (show ¬ (false = true) by decide)]
    have htk : uuidTaken st (uuidAsDBValue u) = true := by
      rw [show uuidAsDBValue u = some u by rw [uuidAsDBValue, if_neg hu]]
      exact htaken
    rw [htk, if_pos rfl]
  exact ⟨hmain, by rw [hmain], by rw [hmain]⟩

/-- Witness for `insert_duplicate_uuid`. -/
theorem insert_duplicate_uuid_witness :
    mongoInsert ⟨[⟨1, some 7, 0, 0, "request", .request "x"⟩], [1]⟩ 7
        (.request "y") 0 5 =
      (.error .duplicateEventUUID,
        ⟨[⟨1, some 7, 0, 0, "request", .request "x"⟩], [1]⟩, 1) :=
  (insert_duplicate_uuid ⟨[⟨1, some 7, 0, 0, "request", .request "x"⟩], [1]⟩ 7
    (.request "y") 0 5 (by decide) (by decide)).1

/-- C10: a successful insert returns an envelope that reflects the call's
arguments unchanged — the event value, the causation id and the external
UUID (nil preserved as nil) — and only appends: every previously stored
envelope is untouched.  This holds for the MongoDB store (insert with a
free or nil UUID) and for the PostgreSQL store (which accepts only the nil
UUID and reports `uuid.Nil` from its envelopes). -/
theorem insert_reflects_arguments (st : MongoState) (u : Nat) (ev : BrokerEvent)
    (caus now : Int) (pst : PgState) (pev : BrokerEvent) (pcaus pnow : Int)
    (hfree : uuidTaken st (uuidAsDBValue u) = false) :
    mongoInsert st u ev caus now =
      (.ok { id := findNextID st, externalUUID := u, created := now,
             causationID := caus, event := ev },
       { events := st.events ++
           [{ id := findNextID st, externalUUID := uuidAsDBValue u,
              created := now, causationID := caus, tag := ev.cls,
              payload := ev }],
         notes := st.notes ++ [findNextID st] }, 1) ∧
      (mongoInsert st u ev caus now).2.1.events.take st.events.length =
        st.events ∧
      pgInsert pst 0 pev pcaus pnow =
        .ok ({ rows := pst.rows ++ [⟨pst.nextSeq, pnow, pcaus, pev.cls, pev⟩],
               nextSeq := pst.nextSeq + 1 },
          { id := pst.nextSeq, created := pnow, causationID := pcaus,
            event := pev }) ∧
      (pst.rows ++ ([⟨pst.nextSeq, pnow, pcaus, pev.cls, pev⟩] : List PgRow)).take
          pst.rows.length = pst.rows := by
  have hmain : mongoInsert st u ev caus now =
      (.ok { id := findNextID st, externalUUID := u, created := now,
             causationID := caus, event := ev },
       { events := st.events ++
           [{ id := findNextID st, externalUUID := uuidAsDBValue u,
              created := now, causationID := caus, tag := ev.cls,
              payload := ev }],
         notes := st.notes ++ [findNextID st] }, 1) := by
    unfold mongoInsert
    rw [hasCodec_cls ev, if_neg (show ¬ (true = false) by decide)]
    unfold insertLoop
    dsimp only
    unfold insertOne
    dsimp only
    rw [findNextID_fresh st, if_neg (show ¬ (false = true) by decide), hfree,
      if_neg (show ¬ (false = true) by decide)]
    dsimp only
    rw [if_pos rfl, uuid_roundtrip]
  refine ⟨hmain, ?_, ?_, ?_⟩
  · rw [hmain]
    simp
  · unfold pgInsert
    rw [if_neg (by simp), hasCodec_cls pev]
    rfl
  · simp

/-- Witness for `insert_reflects_arguments`. -/
theorem insert_reflects_arguments_witness :
    mongoInsert ⟨[], []⟩ 7 (.request "x") 3 9 =
      (.ok ⟨1, 7, 9, 3, .request "x"⟩,
        ⟨[⟨1, some 7, 9, 3, "request", .request "x"⟩], [1]⟩, 1) ∧
      pgInsert ⟨[], 1⟩ 0 (.simple "m") 0 4 =
        .ok (⟨[⟨1, 4, 0, "simple", .simple "m"⟩], 2⟩, ⟨1, 4, 0, .simple "m"⟩) := by
  have h := insert_reflects_arguments ⟨[], []⟩ 7 (.request "x") 3 9
    ⟨[], 1⟩ (.simple "m") 0 4 (by decide)
  exact ⟨h.1, h.2.2.1⟩

/-- C5 counterexample: on the valid environment trace `cexSteps` (retry
budget 1, so at most 2 attempts are claimed) the processor dispatches
three `APIRequest` events for request 2 with attempt indices `[0, 1, 1]`:
the `APIFailure` of attempt 0, processed after attempt 0's `APITimeout`
but before the retry's `APIRequest` reached the processor, passes the
`attempt+1 != next_attempt` guard and dispatches attempt 1 a second
time. -/
theorem attempts_dispatch_counterexample :
    envValidB initialSys cexSteps = true ∧
      (runSteps initialSys cexSteps).map (fun st => apiRequestAttempts st.log 2) =
        some [0, 1, 1] ∧
      (runSteps initialSys cexSteps).map
          (fun st => (lookupReq st.proc.requests 2).map
            (fun d => d.attempts.length)) =
        some (some 2) ∧
      ¬ (([0, 1, 1] : List Nat).length ≤ 2 ∧
          ([0, 1, 1] : List Nat) = List.range ([0, 1, 1] : List Nat).length) := by
  refine ⟨by decide, by decide, by decide, by decide⟩

theorem apiRequestAttempts_append (l1 l2 : List SysEnvelope) (r : Int) :
    apiRequestAttempts (l1 ++ l2) r =
      apiRequestAttempts l1 r ++ apiRequestAttempts l2 r := by
  simp [apiRequestAttempts, List.filterMap_append]

theorem apiRequestAttempts_single (i c : Int) (e : BrokerEvent) (r : Int) :
    apiRequestAttempts [⟨i, c, e⟩] r =
      match e with
      | .apiRequest a => if c = r then [a] else []
      | _ => [] := by
  cases e <;> try simp [apiRequestAttempts]
  by_cases h : c = r <;> simp [apiRequestAttempts, h]

theorem appendInserts_nil (log : List SysEnvelope) : appendInserts log [] = log :=
  rfl

theorem appendInserts_single (log : List SysEnvelope) (e : BrokerEvent) (c : Int) :
    appendInserts log [(e, c)] = log ++ [⟨(log.length : Int) + 1, c, e⟩] :=
  rfl

theorem lookupReq_cons (k : Int) (d : requestData) (m : List (Int × requestData))
    (r : Int) :
    lookupReq ((k, d) :: m) r = if r = k then some d else lookupReq m r := by
  by_cases h : r = k
  · simp [lookupReq, List.lookup, h]
  · simp [lookupReq, List.lookup, beq_false_of_ne h, h]

theorem nextAttemptAux_min (l : List requestState) : ∀ (m : Nat),
    (∀ i (h : i < l.length), (l.get ⟨i, h⟩ ≠ .initial ↔ i < m)) →
    nextAttemptAux l = min m l.length := by
  induction l with
  | nil => intro m _; simp [nextAttemptAux]
  | cons v rest ih =>
    intro m hiff
    rcases m with _ | m'
    · have h0 : v = .initial := by
        by_contra hv
        exact absurd ((hiff 0 (by simp)).mp hv) (by omega)
      simp [nextAttemptAux, h0, isInitial]
    · have h0 : v ≠ .initial := (hiff 0 (by simp)).mpr (by omega)
      have hrest : ∀ i (h : i < rest.length),
          (rest.get ⟨i, h⟩ ≠ .initial ↔ i < m') := by
        intro i h
        have := hiff (i + 1) (by simpa using Nat.succ_lt_succ h)
        simpa [Nat.succ_lt_succ_iff] using this
      have hv : isInitial v = false := by
        cases v <;> simp_all [isInitial]
      rw [nextAttemptAux, hv]
      simp only [Bool.false_eq_true, if_neg, ih m' hrest]
      simp [Nat.succ_min_succ]

theorem append_eq_range (X Y : List Nat) (k : Nat) (h : X ++ Y = List.range k) :
    X = List.range X.length ∧ X.length ≤ k := by
  have hlen : X.length + Y.length = k := by
    have := congrArg List.length h
    simpa using this
  have hx : X = (List.range k).take X.length := by
    rw [← h, List.take_left]
  rw [List.take_range] at hx
  constructor
  · have hmin : X.length ⊓ k = X.length := min_eq_left (by omega)
    rw [hmin] at hx
    exact hx
  · omega

theorem take_succ_of_get? (log : List SysEnvelope) (p : Nat) (env : SysEnvelope)
    (h : log.get? p = some env) : log.take (p + 1) = log.take p ++ [env] := by
  rw [List.take_succ, ← List.get?_eq_getElem?, h]
  rfl

theorem attempt_at_position (log : List SysEnvelope) (r : Int) (p : Nat)
    (hp : p < log.length) (a : Nat)
    (hev : (log.get ⟨p, hp⟩).event = .apiRequest a)
    (hc : (log.get ⟨p, hp⟩).causationID = r)
    (hA : apiRequestAttempts log r =
      List.range (apiRequestAttempts log r).length) :
    a = (apiRequestAttempts (log.take p) r).length ∧
      (apiRequestAttempts (log.take p) r).length <
        (apiRequestAttempts log r).length := by
  have hdecomp : log = log.take p ++ log.get ⟨p, hp⟩ :: log.drop (p + 1) := by
    conv_lhs => rw [← List.take_append_drop p log]
    rw [List.drop_eq_getElem_cons hp]
    rfl
  have hmid : apiRequestAttempts [log.get ⟨p, hp⟩] r = [a] := by
    simp only [apiRequestAttempts, List.filterMap_cons, List.filterMap_nil, hev, hc]
    simp
  have hsplit : apiRequestAttempts log r =
      apiRequestAttempts (log.take p) r ++
        a :: apiRequestAttempts (log.drop (p + 1)) r := by
    conv_lhs => rw [hdecomp]
    rw [show log.take p ++ log.get ⟨p, hp⟩ :: log.drop (p + 1) =
        log.take p ++ ([log.get ⟨p, hp⟩] ++ log.drop (p + 1)) from by simp,
      apiRequestAttempts_append, apiRequestAttempts_append, hmid]
    simp
  set X := apiRequestAttempts (log.take p) r with hX
  set Y := apiRequestAttempts (log.drop (p + 1)) r with hY
  have hlt : X.length < (apiRequestAttempts log r).length := by
    rw [hsplit]
    simp
  have h1 : (apiRequestAttempts log r).get? X.length = some a := by
    rw [hsplit, List.get?_append_right (le_refl X.length)]
    simp
  have h2 : (apiRequestAttempts log r).get? X.length = some X.length := by
    conv_lhs => rw [hA]
    exact List.get?_range hlt
  rw [h1] at h2
  exact ⟨Option.some.inj h2, hlt⟩

theorem processedApiReqs_le (st : SysState) (r : Int) :
    processedApiReqs st r ≤ (apiRequestAttempts st.log r).length := by
  have hsplit : apiRequestAttempts st.log r =
      apiRequestAttempts (st.log.take st.processed) r ++
        apiRequestAttempts (st.log.drop st.processed) r := by
    rw [← apiRequestAttempts_append, List.take_append_drop]
  rw [processedApiReqs, hsplit]
  simp

theorem processed_prefix_range (st : SysState) (r : Int)
    (hA : apiRequestAttempts st.log r =
      List.range (apiRequestAttempts st.log r).length) :
    apiRequestAttempts (st.log.take st.processed) r =
      List.range (processedApiReqs st r) := by
  have hsplit : apiRequestAttempts (st.log.take st.processed) r ++
      apiRequestAttempts (st.log.drop st.processed) r =
        List.range (apiRequestAttempts st.log r).length := by
    rw [← apiRequestAttempts_append, List.take_append_drop]
    exact hA
  exact (append_eq_range _ _ _ hsplit).1

theorem apiRequestAttempts_nil_of (l : List SysEnvelope) (r : Int)
    (h : ∀ env ∈ l, isApiRequestEnv r env = false) :
    apiRequestAttempts l r = [] := by
  rw [apiRequestAttempts]
  apply List.filterMap_eq_nil_iff.mpr
  intro env henv
  have hfalse := h env henv
  cases hev : env.event <;> simp only [hev]
  case apiRequest a =>
    rw [isApiRequestEnv, hev] at hfalse
    simp only [Bool.and_eq_false_iff] at hfalse
    rcases hfalse with hf | hf
    · rw [if_neg (by simpa using hf)]
    · cases hf

theorem caughtUp_consumed_all (st : SysState) (r : Int)
    (h : caughtUpFor st r = true) :
    processedApiReqs st r = (apiRequestAttempts st.log r).length := by
  have hnil : apiRequestAttempts (st.log.drop st.processed) r = [] := by
    apply apiRequestAttempts_nil_of
    intro env henv
    have := (List.all_eq_true.mp h) env henv
    simpa using this
  have hsplit : apiRequestAttempts st.log r =
      apiRequestAttempts (st.log.take st.processed) r ++
        apiRequestAttempts (st.log.drop st.processed) r := by
    rw [← apiRequestAttempts_append, List.take_append_drop]
  rw [processedApiReqs, hsplit, hnil]
  simp

theorem envStep_inv (st : SysState) (e : BrokerEvent) (caus : Int)
    (hinv : SysInv st) (hok : envOk st e caus = true) :
    SysInv { st with log := st.log ++ [⟨(st.log.length : Int) + 1, caus, e⟩] } := by
  have hnotreq : ∀ a, e ≠ .apiRequest a := by
    intro a he
    rw [he] at hok
    simp [envOk] at hok
  have hA : ∀ r, apiRequestAttempts
      (st.log ++ [⟨(st.log.length : Int) + 1, caus, e⟩]) r =
        apiRequestAttempts st.log r := by
    intro r
    rw [apiRequestAttempts_append, apiRequestAttempts_single]
    cases e with
    | apiRequest a => exact absurd rfl (hnotreq a)
    | simple m => simp
    | configuration x y => simp
    | request p => simp
    | apiResponse x y => simp
    | apiFailure x y => simp
    | apiTimeout x => simp
  have htake : ∀ n, n ≤ st.log.length →
      (st.log ++ [(⟨(st.log.length : Int) + 1, caus, e⟩ : SysEnvelope)]).take n =
        st.log.take n :=
    fun n hn => List.take_append_of_le_length hn
  refine ⟨?_, ?_, ?_, ?_, ?_, ?_⟩
  · simp only [List.length_append, List.length_cons, List.length_nil]
    have := hinv.proc_le
    omega
  · intro i h
    simp only [List.length_append, List.length_cons, List.length_nil] at h
    by_cases hi : i < st.log.length
    · rw [List.get_append i hi]
      exact hinv.ids i hi
    · have hieq : i = st.log.length := by omega
      subst hieq
      rw [List.get_of_append rfl rfl]
  · intro r d hd
    obtain ⟨k1, k2, k3, k4, k5, k6⟩ := hinv.rec_inv r d hd
    refine ⟨k1, k2, k3, ?_, ?_, ?_⟩
    · rw [hA r]
      exact k4
    · rw [hA r]
      exact k5
    · intro i h
      rw [show processedApiReqs
          { st with log := st.log ++ [⟨(st.log.length : Int) + 1, caus, e⟩] } r =
          processedApiReqs st r from by
        rw [processedApiReqs, processedApiReqs]
        dsimp only
        rw [htake st.processed hinv.proc_le]]
      exact k6 i h
  · intro r d hd
    exact hinv.rec_key r d hd
  · intro i h a hev
    simp only [List.length_append, List.length_cons, List.length_nil] at h
    by_cases hi : i < st.log.length
    · rw [List.get_append i hi] at hev ⊢
      exact hinv.req_located i hi a hev
    · have hieq : i = st.log.length := by omega
      subst hieq
      rw [List.get_of_append rfl rfl] at hev
      exact absurd hev.symm (Ne.symm (hnotreq a))
  · intro i h a htr
    simp only [List.length_append, List.length_cons, List.length_nil] at h
    by_cases hi : i < st.log.length
    · rw [List.get_append i hi] at htr ⊢
      obtain ⟨j, hj, hji, hreq⟩ := hinv.trigger_after i hi a htr
      refine ⟨j, by simp only [List.length_append]; omega, hji, ?_⟩
      rw [List.get_append j hj]
      exact hreq
    · have hieq : i = st.log.length := by omega
      subst hieq
      rw [List.get_of_append rfl rfl] at htr ⊢
      have hguard : caus ≠ 0 ∧ st.log.any (isApiRequestFor caus a) = true := by
        cases e with
        | apiResponse x y =>
          rw [triggerAttempt] at htr
          cases htr
          rw [envOk] at hok
          simp only [Bool.and_eq_true, bne_iff_ne, ne_eq] at hok
          exact ⟨hok.1, hok.2⟩
        | apiFailure x y =>
          rw [triggerAttempt] at htr
          cases htr
          rw [envOk] at hok
          simp only [Bool.and_eq_true, bne_iff_ne, ne_eq] at hok
          exact ⟨hok.1, hok.2⟩
        | apiTimeout x =>
          rw [triggerAttempt] at htr
          cases htr
          rw [envOk] at hok
          simp only [Bool.and_eq_true, bne_iff_ne, ne_eq] at hok
          exact ⟨hok.1, hok.2⟩
        | simple m => exact absurd htr (by simp [triggerAttempt])
        | configuration x y => exact absurd htr (by simp [triggerAttempt])
        | request p => exact absurd htr (by simp [triggerAttempt])
        | apiRequest x => exact absurd htr (by simp [triggerAttempt])
      obtain ⟨envj, hjmem, hjreq⟩ := List.any_eq_true.mp hguard.2
      obtain ⟨jidx, hjget⟩ := List.mem_iff_get.mp hjmem
      refine ⟨jidx.1, ?_, jidx.2, ?_⟩
      · simp only [List.length_append, List.length_cons, List.length_nil]
        have := jidx.2
        omega
      · show isApiRequestFor caus a _ = true
        rw [List.get_append jidx.1 jidx.2]
        have heta : st.log.get ⟨jidx.1, jidx.2⟩ = envj := hjget
        rw [heta]
        exact hjreq

theorem isApiRequestFor_spec (r : Int) (a : Nat) (env : SysEnvelope)
    (h : isApiRequestFor r a env = true) :
    env.causationID = r ∧ env.event = .apiRequest a := by
  rw [isApiRequestFor] at h
  simp only [Bool.and_eq_true, beq_iff_eq] at h
  obtain ⟨h1, h2⟩ := h
  refine ⟨h1, ?_⟩
  cases hev : env.event <;> rw [hev] at h2 <;> simp at h2
  case apiRequest b =>
    rw [h2]

theorem processedApiReqs_succ (log : List SysEnvelope) (p : Nat)
    (env : SysEnvelope) (hget : log.get? p = some env) (pn pn2 : ProcState)
    (r : Int) :
    processedApiReqs ⟨pn, log, p + 1⟩ r =
      processedApiReqs ⟨pn2, log, p⟩ r + (apiRequestAttempts [env] r).length := by
  rw [processedApiReqs, processedApiReqs]
  dsimp only
  rw [take_succ_of_get? log p env hget, apiRequestAttempts_append,
    List.length_append]

theorem attempt_lt_processed (st : SysState) (r0 : Int) (a j : Nat)
    (hj : j < st.log.length) (hjp : j < st.processed)
    (hreq : isApiRequestFor r0 a (st.log.get ⟨j, hj⟩) = true)
    (hA : apiRequestAttempts st.log r0 =
      List.range (apiRequestAttempts st.log r0).length) :
    a < processedApiReqs st r0 := by
  obtain ⟨hc, hev⟩ := isApiRequestFor_spec r0 a _ hreq
  have hjtake : j < (st.log.take st.processed).length := by
    rw [List.length_take]
    omega
  have hgt : (st.log.take st.processed).get ⟨j, hjtake⟩ = st.log.get ⟨j, hj⟩ := by
    simp [List.getElem_take]
  have hmem : a ∈ apiRequestAttempts (st.log.take st.processed) r0 := by
    rw [apiRequestAttempts]
    apply List.mem_filterMap.mpr
    refine ⟨st.log.get ⟨j, hj⟩, ?_, ?_⟩
    · rw [← hgt]
      exact List.get_mem _ _ _
    · rw [hev, hc]
      simp
  rw [processed_prefix_range st r0 hA] at hmem
  exact List.mem_range.mp hmem

theorem proc_no_update_inv (st : SysState) (pnew : ProcState) (env : SysEnvelope)
    (hinv : SysInv st)
    (hget : st.log.get? st.processed = some env)
    (hreq_same : pnew.requests = st.proc.requests)
    (hnotapi : ∀ b, env.event ≠ .apiRequest b) :
    SysInv ⟨pnew, st.log, st.processed + 1⟩ := by
  obtain ⟨hp, hgp⟩ := List.get?_eq_some.mp hget
  have hAenv : ∀ r, apiRequestAttempts [env] r = [] := by
    intro r
    obtain ⟨i2, c2, e2⟩ := env
    rw [apiRequestAttempts_single]
    cases e2 with
    | apiRequest b => exact absurd rfl (hnotapi b)
    | simple m => rfl
    | configuration x y => rfl
    | request p => rfl
    | apiResponse x y => rfl
    | apiFailure x y => rfl
    | apiTimeout x => rfl
  have hm : ∀ r, processedApiReqs ⟨pnew, st.log, st.processed + 1⟩ r =
      processedApiReqs st r := by
    intro r
    rw [processedApiReqs_succ st.log st.processed env hget pnew st.proc r, hAenv r]
    simp
  refine ⟨by dsimp only; omega, hinv.ids, ?_, ?_, ?_, hinv.trigger_after⟩
  · intro r d hd
    rw [show (⟨pnew, st.log, st.processed + 1⟩ : SysState).proc = pnew from rfl,
      hreq_same] at hd
    obtain ⟨k1, k2, k3, k4, k5, k6⟩ := hinv.rec_inv r d hd
    refine ⟨k1, k2, k3, k4, k5, ?_⟩
    intro i h
    rw [hm r]
    exact k6 i h
  · intro r d hd
    rw [show (⟨pnew, st.log, st.processed + 1⟩ : SysState).proc = pnew from rfl,
      hreq_same] at hd
    obtain ⟨h1, h2⟩ := hinv.rec_key r d hd
    refine ⟨h1, ?_⟩
    dsimp only
    push_cast
    omega
  · intro i h a hev
    rw [show (⟨pnew, st.log, st.processed + 1⟩ : SysState).proc = pnew from rfl,
      hreq_same]
    exact hinv.req_located i h a hev

theorem lookupReq_updReq_isSome (m : List (Int × requestData)) (k r : Int)
    (v : requestData) :
    (lookupReq (updReq m k v) r).isSome = (lookupReq m r).isSome := by
  rw [lookupReq_updReq]
  by_cases h : k = r <;> simp [h]

theorem set_attempts_iff (l : List requestState) (a : Nat) (v : requestState)
    (m : Nat) (hv : v ≠ .initial) (ha : a < m)
    (hold : ∀ i (h : i < l.length), (l.get ⟨i, h⟩ ≠ .initial ↔ i < m)) :
    ∀ i (h : i < (l.set a v).length),
      ((l.set a v).get ⟨i, h⟩ ≠ .initial ↔ i < m) := by
  intro i h
  have hlen : (l.set a v).length = l.length := by simp
  rw [hlen] at h
  by_cases hia : a = i
  · subst hia
    rw [show (l.set a v).get ⟨a, by simpa using h⟩ = v from by
      simp [List.get_eq_getElem, List.getElem_set_eq, h]]
    simp [hv, ha]
  · rw [show (l.set a v).get ⟨i, by simpa using h⟩ = l.get ⟨i, h⟩ from by
      simp [List.get_eq_getElem, List.getElem_set_ne, hia]]
    exact hold i h

theorem proc_update_inv (st : SysState) (env : SysEnvelope) (r0 : Int)
    (d : requestData) (a : Nat) (v : requestState)
    (hinv : SysInv st)
    (hget : st.log.get? st.processed = some env)
    (hnotapi : ∀ b, env.event ≠ .apiRequest b)
    (hd : lookupReq st.proc.requests r0 = some d)
    (hv : v ≠ .initial)
    (ha : a < processedApiReqs st r0)
    (pnew : ProcState)
    (hreq_new : pnew.requests =
      updReq st.proc.requests r0 ⟨d.envelope, d.attempts.set a v⟩) :
    SysInv ⟨pnew, st.log, st.processed + 1⟩ := by
  obtain ⟨hp, hgp⟩ := List.get?_eq_some.mp hget
  have hAenv : ∀ r, apiRequestAttempts [env] r = [] := by
    intro r
    obtain ⟨i2, c2, e2⟩ := env
    rw [apiRequestAttempts_single]
    cases e2 with
    | apiRequest b => exact absurd rfl (hnotapi b)
    | simple m => rfl
    | configuration x y => rfl
    | request p => rfl
    | apiResponse x y => rfl
    | apiFailure x y => rfl
    | apiTimeout x => rfl
  have hm : ∀ r (pn : ProcState), processedApiReqs ⟨pn, st.log, st.processed + 1⟩ r =
      processedApiReqs st r := by
    intro r pn
    rw [processedApiReqs_succ st.log st.processed env hget pn st.proc r, hAenv r]
    simp
  refine ⟨by dsimp only; omega, hinv.ids, ?_, ?_, ?_, hinv.trigger_after⟩
  · intro r d1 hd1
    rw [show (⟨pnew, st.log, st.processed + 1⟩ : SysState).proc = pnew from rfl,
      hreq_new, lookupReq_updReq] at hd1
    by_cases hr : r0 = r
    · subst hr
      rw [hd] at hd1
      simp only [Option.map_some] at hd1
      cases hd1
      obtain ⟨k1, k2, k3, k4, k5, k6⟩ := hinv.rec_inv r0 d hd
      refine ⟨k1, k2, by simpa using k3, k4, by simpa using k5, ?_⟩
      intro i h
      rw [hm r0 pnew]
      exact set_attempts_iff d.attempts a v (processedApiReqs st r0) hv ha k6 i h
    · rw [if_neg hr] at hd1
      obtain ⟨k1, k2, k3, k4, k5, k6⟩ := hinv.rec_inv r d1 hd1
      refine ⟨k1, k2, k3, k4, k5, ?_⟩
      intro i h
      rw [hm r pnew]
      exact k6 i h
  · intro r d1 hd1
    rw [show (⟨pnew, st.log, st.processed + 1⟩ : SysState).proc = pnew from rfl,
      hreq_new, lookupReq_updReq] at hd1
    by_cases hr : r0 = r
    · subst hr
      obtain ⟨h1, h2⟩ := hinv.rec_key r0 d hd
      refine ⟨h1, ?_⟩
      dsimp only
      push_cast
      omega
    · rw [if_neg hr] at hd1
      obtain ⟨h1, h2⟩ := hinv.rec_key r d1 hd1
      refine ⟨h1, ?_⟩
      dsimp only
      push_cast
      omega
  · intro i h a2 hev
    rw [show (⟨pnew, st.log, st.processed + 1⟩ : SysState).proc = pnew from rfl,
      hreq_new, lookupReq_updReq_isSome]
    exact hinv.req_located i h a2 hev

theorem proc_dispatch_inv (st : SysState) (env : SysEnvelope) (r0 : Int)
    (d : requestData) (a : Nat) (v : requestState)
    (hinv : SysInv st)
    (hget : st.log.get? st.processed = some env)
    (hnotapi : ∀ b, env.event ≠ .apiRequest b)
    (hd : lookupReq st.proc.requests r0 = some d)
    (hv : v ≠ .initial)
    (ha : a < processedApiReqs st r0)
    (hlen : (apiRequestAttempts st.log r0).length + 1 ≤ d.attempts.length)
    (pnew : ProcState)
    (hreq_new : pnew.requests =
      updReq st.proc.requests r0 ⟨d.envelope, d.attempts.set a v⟩)
    (nd : Nat) (hnd : nd = (apiRequestAttempts st.log r0).length) :
    SysInv ⟨pnew, st.log ++ [⟨(st.log.length : Int) + 1, r0, .apiRequest nd⟩],
      st.processed + 1⟩ := by
  obtain ⟨hp, hgp⟩ := List.get?_eq_some.mp hget
  have hAenv : ∀ r, apiRequestAttempts [env] r = [] := by
    intro r
    obtain ⟨i2, c2, e2⟩ := env
    rw [apiRequestAttempts_single]
    cases e2 with
    | apiRequest b => exact absurd rfl (hnotapi b)
    | simple m => rfl
    | configuration x y => rfl
    | request p => rfl
    | apiResponse x y => rfl
    | apiFailure x y => rfl
    | apiTimeout x => rfl
  have hr0pos : 0 < r0 := (hinv.rec_key r0 d hd).1
  set newReq : SysEnvelope := ⟨(st.log.length : Int) + 1, r0, .apiRequest nd⟩
    with hnewReq
  have hAnew : ∀ r, apiRequestAttempts (st.log ++ [newReq]) r =
      apiRequestAttempts st.log r ++ (if r0 = r then [nd] else []) := by
    intro r
    rw [apiRequestAttempts_append, hnewReq, apiRequestAttempts_single]
  have hm : ∀ r (pn : ProcState),
      processedApiReqs ⟨pn, st.log ++ [newReq], st.processed + 1⟩ r =
        processedApiReqs st r := by
    intro r pn
    have hget2 : (st.log ++ [newReq]).get? st.processed = some env := by
      rw [List.get?_append hp]
      exact hget
    rw [processedApiReqs_succ (st.log ++ [newReq]) st.processed env hget2 pn pn r,
      hAenv r]
    simp only [List.length_nil, Nat.add_zero]
    rw [processedApiReqs, processedApiReqs]
    dsimp only
    rw [List.take_append_of_le_length (by omega)]
  refine ⟨?_, ?_, ?_, ?_, ?_, ?_⟩
  · dsimp only
    simp only [List.length_append, List.length_cons, List.length_nil]
    omega
  · intro i h
    dsimp only at h ⊢
    simp only [List.length_append, List.length_cons, List.length_nil] at h
    by_cases hi : i < st.log.length
    · rw [List.get_append i hi]
      exact hinv.ids i hi
    · have hieq : i = st.log.length := by omega
      subst hieq
      rw [List.get_of_append rfl rfl]
  · intro r d1 hd1
    rw [show (⟨pnew, st.log ++ [newReq], st.processed + 1⟩ : SysState).proc = pnew
      from rfl, hreq_new, lookupReq_updReq] at hd1
    by_cases hr : r0 = r
    · subst hr
      rw [hd] at hd1
      simp only [Option.map_some] at hd1
      cases hd1
      obtain ⟨k1, k2, k3, k4, k5, k6⟩ := hinv.rec_inv r0 d hd
      refine ⟨k1, k2, by simpa using k3, ?_, ?_, ?_⟩
      · show apiRequestAttempts (st.log ++ [newReq]) r0 =
          List.range (apiRequestAttempts (st.log ++ [newReq]) r0).length
        have hlen2 : (apiRequestAttempts (st.log ++ [newReq]) r0).length =
            (apiRequestAttempts st.log r0).length + 1 := by
          rw [hAnew r0, if_pos rfl]
          simp
        rw [hlen2, hAnew r0, if_pos rfl, hnd]
        nth_rewrite 1 [k4]
        exact (List.range_succ (apiRequestAttempts st.log r0).length).symm
      · show (apiRequestAttempts (st.log ++ [newReq]) r0).length ≤ _
        rw [hAnew r0, if_pos rfl]
        simp only [List.length_append, List.length_cons, List.length_nil,
          List.length_set]
        omega
      · intro i h
        rw [hm r0 pnew]
        exact set_attempts_iff d.attempts a v (processedApiReqs st r0) hv ha k6 i h
    · rw [if_neg hr] at hd1
      obtain ⟨k1, k2, k3, k4, k5, k6⟩ := hinv.rec_inv r d1 hd1
      refine ⟨k1, k2, k3, ?_, ?_, ?_⟩
      · show apiRequestAttempts (st.log ++ [newReq]) r = _
        rw [hAnew r, if_neg hr]
        simpa using k4
      · show (apiRequestAttempts (st.log ++ [newReq]) r).length ≤ _
        rw [hAnew r, if_neg hr]
        simpa using k5
      · intro i h
        rw [hm r pnew]
        exact k6 i h
  · intro r d1 hd1
    rw [show (⟨pnew, st.log ++ [newReq], st.processed + 1⟩ : SysState).proc = pnew
      from rfl, hreq_new, lookupReq_updReq] at hd1
    by_cases hr : r0 = r
    · subst hr
      obtain ⟨h1, h2⟩ := hinv.rec_key r0 d hd
      refine ⟨h1, ?_⟩
      dsimp only
      push_cast
      omega
    · rw [if_neg hr] at hd1
      obtain ⟨h1, h2⟩ := hinv.rec_key r d1 hd1
      refine ⟨h1, ?_⟩
      dsimp only
      push_cast
      omega
  · intro i h a2 hev
    dsimp only at h hev ⊢
    simp only [List.length_append, List.length_cons, List.length_nil] at h
    rw [hreq_new, lookupReq_updReq_isSome]
    by_cases hi : i < st.log.length
    · rw [List.get_append i hi] at hev ⊢
      exact hinv.req_located i hi a2 hev
    · have hieq : i = st.log.length := by omega
      subst hieq
      rw [List.get_of_append rfl rfl]
      rw [show (newReq : SysEnvelope).causationID = r0 from rfl, hd]
      rfl
  · intro i h a2 htr
    dsimp only at h htr ⊢
    simp only [List.length_append, List.length_cons, List.length_nil] at h
    by_cases hi : i < st.log.length
    · rw [List.get_append i hi] at htr ⊢
      obtain ⟨j, hj, hji, hreq⟩ := hinv.trigger_after i hi a2 htr
      refine ⟨j, by simp only [List.length_append, List.length_cons,
        List.length_nil]; omega, hji, ?_⟩
      rw [List.get_append j hj]
      exact hreq
    · have hieq : i = st.log.length := by omega
      subst hieq
      rw [List.get_of_append rfl rfl] at htr
      exact absurd htr (by rw [hnewReq]; simp [triggerAttempt])

theorem nextAttempt_new (e : SysEnvelope) (n : Nat) :
    nextAttempt (newRequestData e n) = 0 := by
  simp [newRequestData, nextAttempt, List.replicate_succ, nextAttemptAux, isInitial]

theorem proc_request_inv (st : SysState) (env : SysEnvelope) (pl : String)
    (hinv : SysInv st)
    (hget : st.log.get? st.processed = some env)
    (hev : env.event = .request pl)
    (pnew : ProcState)
    (hreq_new : pnew.requests =
      (env.id, newRequestData env st.proc.retries) :: st.proc.requests) :
    SysInv ⟨pnew, st.log ++ [⟨(st.log.length : Int) + 1, env.id,
      .apiRequest (nextAttempt (newRequestData env st.proc.retries))⟩],
      st.processed + 1⟩ := by
  obtain ⟨hp, hgp⟩ := List.get?_eq_some.mp hget
  have hid : env.id = (st.processed : Int) + 1 := by
    rw [← hgp]
    exact hinv.ids st.processed hp
  have hfresh : ∀ r d1, lookupReq st.proc.requests r = some d1 → r ≠ env.id := by
    intro r d1 hd1 hre
    have := (hinv.rec_key r d1 hd1).2
    rw [hre, hid] at this
    omega
  have hAe : apiRequestAttempts st.log env.id = [] := by
    apply apiRequestAttempts_nil_of
    intro env2 henv2
    by_contra hne
    have htrue : isApiRequestEnv env.id env2 = true := by
      cases hb : isApiRequestEnv env.id env2
      · exact absurd hb hne
      · rfl
    rw [isApiRequestEnv] at htrue
    simp only [Bool.and_eq_true, beq_iff_eq] at htrue
    obtain ⟨hc2, he2⟩ := htrue
    have hb : ∃ b, env2.event = .apiRequest b := by
      cases hev2 : env2.event <;> rw [hev2] at he2 <;> simp at he2
      case apiRequest b => exact ⟨b, rfl⟩
    obtain ⟨b, hev2⟩ := hb
    obtain ⟨jidx, hjget⟩ := List.mem_iff_get.mp henv2
    have hloc := hinv.req_located jidx.1 jidx.2 b (by
      rw [show st.log.get ⟨jidx.1, jidx.2⟩ = env2 from hjget]
      exact hev2)
    rw [show st.log.get ⟨jidx.1, jidx.2⟩ = env2 from hjget, hc2] at hloc
    rcases hsome : lookupReq st.proc.requests env.id with _ | d2
    · rw [hsome] at hloc
      simp at hloc
    · exact hfresh env.id d2 hsome rfl
  rw [nextAttempt_new]
  set newReq : SysEnvelope := ⟨(st.log.length : Int) + 1, env.id, .apiRequest 0⟩
    with hnewReq
  have hAnew : ∀ r, apiRequestAttempts (st.log ++ [newReq]) r =
      apiRequestAttempts st.log r ++ (if env.id = r then [0] else []) := by
    intro r
    rw [apiRequestAttempts_append, hnewReq, apiRequestAttempts_single]
  have hget2 : (st.log ++ [newReq]).get? st.processed = some env := by
    rw [List.get?_append hp]
    exact hget
  have hm : ∀ r (pn : ProcState),
      processedApiReqs ⟨pn, st.log ++ [newReq], st.processed + 1⟩ r =
        processedApiReqs st r := by
    intro r pn
    rw [processedApiReqs_succ (st.log ++ [newReq]) st.processed env hget2 pn pn r]
    rw [show apiRequestAttempts [env] r = [] from by
      obtain ⟨i2, c2, e2⟩ := env
      rw [apiRequestAttempts_single,
        show e2 = BrokerEvent.request pl from hev]]
    simp only [List.length_nil, Nat.add_zero]
    rw [processedApiReqs, processedApiReqs]
    dsimp only
    rw [List.take_append_of_le_length (by omega)]
  have hAtake : apiRequestAttempts (st.log.take st.processed) env.id = [] := by
    have hsplit : apiRequestAttempts (st.log.take st.processed) env.id ++
        apiRequestAttempts (st.log.drop st.processed) env.id = [] := by
      rw [← apiRequestAttempts_append, List.take_append_drop]
      exact hAe
    exact (List.append_eq_nil.mp hsplit).1
  have hm0 : processedApiReqs st env.id = 0 := by
    rw [processedApiReqs, hAtake]
    rfl
  have h01 : apiRequestAttempts (st.log ++ [newReq]) env.id = [0] := by
    rw [hAnew env.id, if_pos rfl, hAe]
    rfl
  refine ⟨?_, ?_, ?_, ?_, ?_, ?_⟩
  · dsimp only
    simp only [List.length_append, List.length_cons, List.length_nil]
    omega
  · intro i h
    dsimp only at h ⊢
    simp only [List.length_append, List.length_cons, List.length_nil] at h
    by_cases hi : i < st.log.length
    · rw [List.get_append i hi]
      exact hinv.ids i hi
    · have hieq : i = st.log.length := by omega
      subst hieq
      rw [List.get_of_append rfl rfl]
  · intro r d1 hd1
    rw [show (⟨pnew, st.log ++ [newReq], st.processed + 1⟩ : SysState).proc = pnew
      from rfl, hreq_new, lookupReq_cons] at hd1
    by_cases hr : r = env.id
    · subst hr
      rw [if_pos rfl] at hd1
      cases hd1
      refine ⟨rfl, ⟨pl, hev⟩, by simp [newRequestData], ?_, ?_, ?_⟩
      · show apiRequestAttempts (st.log ++ [newReq]) env.id =
          List.range (apiRequestAttempts (st.log ++ [newReq]) env.id).length
        rw [h01]
        rfl
      · show (apiRequestAttempts (st.log ++ [newReq]) env.id).length ≤ _
        rw [h01]
        simp [newRequestData]
      · intro i h
        rw [hm env.id pnew, hm0]
        have hgi : (newRequestData env st.proc.retries).attempts.get ⟨i, h⟩ =
            .initial := by
          simp [newRequestData]
        rw [hgi]
        simp
    · rw [if_neg hr] at hd1
      obtain ⟨k1, k2, k3, k4, k5, k6⟩ := hinv.rec_inv r d1 hd1
      have hner : ¬ env.id = r := fun he => hr he.symm
      refine ⟨k1, k2, k3, ?_, ?_, ?_⟩
      · show apiRequestAttempts (st.log ++ [newReq]) r = _
        rw [hAnew r, if_neg hner]
        simpa using k4
      · show (apiRequestAttempts (st.log ++ [newReq]) r).length ≤ _
        rw [hAnew r, if_neg hner]
        simpa using k5
      · intro i h
        rw [hm r pnew]
        exact k6 i h
  · intro r d1 hd1
    rw [show (⟨pnew, st.log ++ [newReq], st.processed + 1⟩ : SysState).proc = pnew
      from rfl, hreq_new, lookupReq_cons] at hd1
    by_cases hr : r = env.id
    · subst hr
      rw [hid]
      constructor
      · omega
      · dsimp only
        push_cast
        omega
    · rw [if_neg hr] at hd1
      obtain ⟨h1, h2⟩ := hinv.rec_key r d1 hd1
      refine ⟨h1, ?_⟩
      dsimp only
      push_cast
      omega
  · intro i h a2 hev2
    dsimp only at h hev2 ⊢
    simp only [List.length_append, List.length_cons, List.length_nil] at h
    rw [hreq_new]
    by_cases hi : i < st.log.length
    · rw [List.get_append i hi] at hev2 ⊢
      rw [lookupReq_cons]
      by_cases hc : (st.log.get ⟨i, hi⟩).causationID = env.id
      · rw [if_pos hc]
        rfl
      · rw [if_neg hc]
        exact hinv.req_located i hi a2 hev2
    · have hieq : i = st.log.length := by omega
      subst hieq
      rw [List.get_of_append rfl rfl]
      rw [show (newReq : SysEnvelope).causationID = env.id from rfl, lookupReq_cons,
        if_pos rfl]
      rfl
  · intro i h a2 htr
    dsimp only at h htr ⊢
    simp only [List.length_append, List.length_cons, List.length_nil] at h
    by_cases hi : i < st.log.length
    · rw [List.get_append i hi] at htr ⊢
      obtain ⟨j, hj, hji, hreq⟩ := hinv.trigger_after i hi a2 htr
      refine ⟨j, by simp only [List.length_append, List.length_cons,
        List.length_nil]; omega, hji, ?_⟩
      rw [List.get_append j hj]
      exact hreq
    · have hieq : i = st.log.length := by omega
      subst hieq
      rw [List.get_of_append rfl rfl] at htr
      exact absurd htr (by rw [hnewReq]; simp [triggerAttempt])

theorem set_attempts_iff_succ (l : List requestState) (m : Nat) (_hm : m < l.length)
    (v : requestState) (hv : v ≠ .initial)
    (hold : ∀ i (h : i < l.length), (l.get ⟨i, h⟩ ≠ .initial ↔ i < m)) :
    ∀ i (h : i < (l.set m v).length),
      ((l.set m v).get ⟨i, h⟩ ≠ .initial ↔ i < m + 1) := by
  intro i h
  have hlen : (l.set m v).length = l.length := by simp
  rw [hlen] at h
  by_cases him : m = i
  · subst him
    rw [show (l.set m v).get ⟨m, by simpa using h⟩ = v from by
      simp [List.get_eq_getElem, List.getElem_set_eq, h]]
    simp [hv]
  · rw [show (l.set m v).get ⟨i, by simpa using h⟩ = l.get ⟨i, h⟩ from by
      simp [List.get_eq_getElem, List.getElem_set_ne, him]]
    rw [hold i h]
    omega

theorem proc_apiVisit_inv (st : SysState) (env : SysEnvelope) (r0 : Int)
    (d : requestData) (a : Nat)
    (hinv : SysInv st)
    (hget : st.log.get? st.processed = some env)
    (hc : env.causationID = r0)
    (hev : env.event = .apiRequest a)
    (hd : lookupReq st.proc.requests r0 = some d)
    (pnew : ProcState)
    (hreq_new : pnew.requests =
      updReq st.proc.requests r0 ⟨d.envelope, d.attempts.set a .pending⟩) :
    SysInv ⟨pnew, st.log, st.processed + 1⟩ := by
  obtain ⟨hp, hgp⟩ := List.get?_eq_some.mp hget
  obtain ⟨k1, k2, k3, k4, k5, k6⟩ := hinv.rec_inv r0 d hd
  obtain ⟨ham, hmk⟩ := attempt_at_position st.log r0 st.processed hp a
    (by rw [hgp]; exact hev) (by rw [hgp]; exact hc) k4
  have hAenvr0 : apiRequestAttempts [env] r0 = [a] := by
    obtain ⟨i2, c2, e2⟩ := env
    rw [apiRequestAttempts_single, show e2 = BrokerEvent.apiRequest a from hev]
    dsimp only
    rw [if_pos (show (c2 : Int) = r0 from hc)]
  have hAenv : ∀ r, r ≠ r0 → apiRequestAttempts [env] r = [] := by
    intro r hr
    obtain ⟨i2, c2, e2⟩ := env
    rw [apiRequestAttempts_single, show e2 = BrokerEvent.apiRequest a from hev]
    dsimp only
    rw [if_neg (by rw [show (c2 : Int) = r0 from hc]; exact fun he => hr he.symm)]
  have hmr0 : processedApiReqs ⟨pnew, st.log, st.processed + 1⟩ r0 =
      processedApiReqs st r0 + 1 := by
    rw [processedApiReqs_succ st.log st.processed env hget pnew st.proc r0,
      hAenvr0]
    rfl
  have hm : ∀ r, r ≠ r0 → processedApiReqs ⟨pnew, st.log, st.processed + 1⟩ r =
      processedApiReqs st r := by
    intro r hr
    rw [processedApiReqs_succ st.log st.processed env hget pnew st.proc r,
      hAenv r hr]
    simp
  have hmlen : processedApiReqs st r0 < d.attempts.length := by
    have hprfl : processedApiReqs st r0 =
        (apiRequestAttempts (st.log.take st.processed) r0).length := rfl
    omega
  refine ⟨by dsimp only; omega, hinv.ids, ?_, ?_, ?_, hinv.trigger_after⟩
  · intro r d1 hd1
    rw [show (⟨pnew, st.log, st.processed + 1⟩ : SysState).proc = pnew from rfl,
      hreq_new, lookupReq_updReq] at hd1
    by_cases hr : r0 = r
    · subst hr
      rw [hd] at hd1
      simp only [Option.map_some] at hd1
      cases hd1
      refine ⟨k1, k2, by simpa using k3, k4, by simpa using k5, ?_⟩
      intro i h
      rw [hmr0]
      have ham2 : a = processedApiReqs st r0 := ham
      subst ham2
      exact set_attempts_iff_succ d.attempts (processedApiReqs st r0) hmlen
        .pending (by simp) k6 i h
    · rw [if_neg hr] at hd1
      obtain ⟨j1, j2, j3, j4, j5, j6⟩ := hinv.rec_inv r d1 hd1
      refine ⟨j1, j2, j3, j4, j5, ?_⟩
      intro i h
      rw [hm r (fun he => hr he.symm)]
      exact j6 i h
  · intro r d1 hd1
    rw [show (⟨pnew, st.log, st.processed + 1⟩ : SysState).proc = pnew from rfl,
      hreq_new, lookupReq_updReq] at hd1
    by_cases hr : r0 = r
    · subst hr
      obtain ⟨h1, h2⟩ := hinv.rec_key r0 d hd
      refine ⟨h1, ?_⟩
      dsimp only
      push_cast
      omega
    · rw [if_neg hr] at hd1
      obtain ⟨h1, h2⟩ := hinv.rec_key r d1 hd1
      refine ⟨h1, ?_⟩
      dsimp only
      push_cast
      omega
  · intro i h a2 hev2
    rw [show (⟨pnew, st.log, st.processed + 1⟩ : SysState).proc = pnew from rfl,
      hreq_new, lookupReq_updReq_isSome]
    exact hinv.req_located i h a2 hev2

theorem procStep_inv (st st0 : SysState)
    (hinv : SysInv st) (hcaught : caughtUpNow st = true)
    (hstep : doStep st .procStep = some st0) : SysInv st0 := by
  rw [doStep] at hstep
  rcases hget : st.log.get? st.processed with _ | env
  · rw [hget] at hstep
    dsimp only at hstep
    cases Option.some.inj hstep
    exact hinv
  · rw [hget] at hstep
    dsimp only at hstep
    rcases hrun : handleEvent st.proc env with _ | pr
    · rw [hrun] at hstep
      cases hstep
    · obtain ⟨p, outs⟩ := pr
      rw [hrun] at hstep
      dsimp only at hstep
      have hst0 : st0 = ⟨p, appendInserts st.log outs, st.processed + 1⟩ :=
        (Option.some.inj hstep).symm
      subst hst0
      clear hstep
      obtain ⟨hp, hgp⟩ := List.get?_eq_some.mp hget
      obtain ⟨eid, ecaus, eev⟩ := env
      cases eev with
      | simple m =>
        unfold handleEvent at hrun
        dsimp only at hrun
        obtain ⟨hpeq, houts⟩ := some_pair_inj hrun
        subst houts
        rw [appendInserts_nil]
        exact proc_no_update_inv st p _ hinv hget (by rw [← hpeq]) (by simp)
      | configuration rr tt =>
        unfold handleEvent at hrun
        dsimp only at hrun
        obtain ⟨hpeq, houts⟩ := some_pair_inj hrun
        subst houts
        rw [appendInserts_nil]
        exact proc_no_update_inv st p _ hinv hget (by rw [← hpeq]) (by simp)
      | request pl =>
        unfold handleEvent at hrun
        dsimp only at hrun
        obtain ⟨hpeq, houts⟩ := some_pair_inj hrun
        subst houts
        rw [appendInserts_single]
        exact proc_request_inv st ⟨eid, ecaus, .request pl⟩ pl hinv hget rfl p
          (by rw [← hpeq])
      | apiRequest a =>
        have hloc := hinv.req_located st.processed hp a (by rw [hgp])
        rw [hgp] at hloc
        rcases hd : lookupReq st.proc.requests ecaus with _ | d
        · rw [show (⟨eid, ecaus, .apiRequest a⟩ : SysEnvelope).causationID = ecaus
            from rfl, hd] at hloc
          simp at hloc
        · have hc0 : ¬ ecaus = 0 := by
            have := (hinv.rec_key ecaus d hd).1
            omega
          unfold handleEvent at hrun
          dsimp only at hrun
          rw [if_neg hc0, hd] at hrun
          dsimp only at hrun
          by_cases hb : a < d.attempts.length
          · rw [if_pos hb] at hrun
            obtain ⟨hpeq, houts⟩ := some_pair_inj hrun
            subst houts
            rw [appendInserts_nil]
            exact proc_apiVisit_inv st ⟨eid, ecaus, .apiRequest a⟩ ecaus d a hinv
              hget rfl rfl hd p (by rw [← hpeq])
          · rw [if_neg hb] at hrun
            cases hrun
      | apiResponse a body =>
        have htr := hinv.trigger_after st.processed hp a (by
          rw [hgp]
          rfl)
        rw [hgp] at htr
        obtain ⟨j, hj, hji, hjreq⟩ := htr
        obtain ⟨hjc, hjev⟩ := isApiRequestFor_spec _ _ _ hjreq
        have hloc := hinv.req_located j hj a (by rw [hjev])
        rw [hjc] at hloc
        rcases hd : lookupReq st.proc.requests ecaus with _ | d
        · rw [show (⟨eid, ecaus, .apiResponse a body⟩ : SysEnvelope).causationID =
            ecaus from rfl, hd] at hloc
          simp at hloc
        · have hc0 : ¬ ecaus = 0 := by
            have := (hinv.rec_key ecaus d hd).1
            omega
          have ha : a < processedApiReqs st ecaus :=
            attempt_lt_processed st ecaus a j hj (by
              have := (hinv.rec_key ecaus d hd).2
              omega) (by rw [show (⟨eid, ecaus, .apiResponse a body⟩ :
                SysEnvelope).causationID = ecaus from rfl] at hjreq; exact hjreq)
              (hinv.rec_inv ecaus d hd).disp
          unfold handleEvent at hrun
          dsimp only at hrun
          rw [if_neg hc0, hd] at hrun
          dsimp only at hrun
          by_cases hb : a < d.attempts.length
          · rw [if_pos hb] at hrun
            obtain ⟨hpeq, houts⟩ := some_pair_inj hrun
            subst houts
            rw [appendInserts_nil]
            exact proc_update_inv st ⟨eid, ecaus, .apiResponse a body⟩ ecaus d a
              .success hinv hget (by simp) hd (by simp) ha p (by rw [← hpeq])
          · rw [if_neg hb] at hrun
            cases hrun
      | apiFailure a msg =>
        have htr := hinv.trigger_after st.processed hp a (by rw [hgp]; rfl)
        rw [hgp] at htr
        obtain ⟨j, hj, hji, hjreq⟩ := htr
        obtain ⟨hjc, hjev⟩ := isApiRequestFor_spec _ _ _ hjreq
        have hloc := hinv.req_located j hj a (by rw [hjev])
        rw [hjc] at hloc
        rcases hd : lookupReq st.proc.requests ecaus with _ | d
        · rw [show (⟨eid, ecaus, .apiFailure a msg⟩ : SysEnvelope).causationID = ecaus from rfl, hd] at hloc
          simp at hloc
        · have hc0 : ¬ ecaus = 0 := by
            have := (hinv.rec_key ecaus d hd).1
            omega
          have ha : a < processedApiReqs st ecaus :=
            attempt_lt_processed st ecaus a j hj (by
              have := (hinv.rec_key ecaus d hd).2
              omega) (by rw [show (⟨eid, ecaus, .apiFailure a msg⟩ : SysEnvelope).causationID = ecaus from rfl] at hjreq; exact hjreq)
              (hinv.rec_inv ecaus d hd).disp
          have hcf : caughtUpFor st ecaus = true := by
            rw [caughtUpNow, hget] at hcaught
            exact hcaught
          have hmk : processedApiReqs st ecaus = (apiRequestAttempts st.log ecaus).length :=
            caughtUp_consumed_all st ecaus hcf
          unfold handleEvent at hrun
          dsimp only at hrun
          rw [if_neg hc0, hd] at hrun
          dsimp only at hrun
          by_cases hb : a < d.attempts.length
          · rw [if_pos hb] at hrun
            by_cases h1 : a = ({ envelope := d.envelope, attempts := d.attempts.set a .failure } : requestData).retriesOf
            · rw [if_pos h1] at hrun
              obtain ⟨hpeq, houts⟩ := some_pair_inj hrun
              subst houts
              rw [appendInserts_nil]
              exact proc_update_inv st _ ecaus d a .failure hinv hget (by simp) hd (by simp) ha p (by rw [← hpeq])
            · rw [if_neg h1] at hrun
              by_cases h2 : a + 1 ≠ nextAttempt { envelope := d.envelope, attempts := d.attempts.set a .failure }
              · rw [if_pos h2] at hrun
                obtain ⟨hpeq, houts⟩ := some_pair_inj hrun
                subst houts
                rw [appendInserts_nil]
                exact proc_update_inv st _ ecaus d a .failure hinv hget (by simp) hd (by simp) ha p (by rw [← hpeq])
              · rw [if_neg h2] at hrun
                by_cases h3 : succeeded { envelope := d.envelope, attempts := d.attempts.set a .failure } = true
                · rw [if_pos h3] at hrun
                  obtain ⟨hpeq, houts⟩ := some_pair_inj hrun
                  subst houts
                  rw [appendInserts_nil]
                  exact proc_update_inv st _ ecaus d a .failure hinv hget (by simp) hd (by simp) ha p (by rw [← hpeq])
                · rw [if_neg h3] at hrun
                  obtain ⟨pp, hpp⟩ := (hinv.rec_inv ecaus d hd).key_req
                  rw [show ({ envelope := d.envelope, attempts := d.attempts.set a .failure } : requestData).envelope.event = d.envelope.event from rfl, hpp] at hrun
                  dsimp only at hrun
                  obtain ⟨hpeq, houts⟩ := some_pair_inj hrun
                  subst houts
                  have hiff := (hinv.rec_inv ecaus d hd).attempts_iff
                  have hle := (hinv.rec_inv ecaus d hd).disp_le
                  have hna : nextAttempt { envelope := d.envelope, attempts := d.attempts.set a .failure } = processedApiReqs st ecaus := by
                    rw [nextAttempt]
                    rw [show ({ envelope := d.envelope, attempts := d.attempts.set a .failure } : requestData).attempts = d.attempts.set a .failure from rfl]
                    rw [nextAttemptAux_min (d.attempts.set a .failure) (processedApiReqs st ecaus) (set_attempts_iff d.attempts a .failure (processedApiReqs st ecaus) (by simp) ha hiff)]
                    rw [List.length_set]
                    exact min_eq_left (by omega)
                  have hretr : ({ envelope := d.envelope, attempts := d.attempts.set a .failure } : requestData).retriesOf = d.attempts.length - 1 := by
                    rw [requestData.retriesOf]
                    simp
                  have hak : a + 1 = (apiRequestAttempts st.log ecaus).length := by
                    push_neg at h2
                    rw [h2, hna, hmk]
                  have hlen1 : (apiRequestAttempts st.log ecaus).length + 1 ≤ d.attempts.length := by
                    rw [hretr] at h1
                    omega
                  rw [appendInserts_single]
                  have hkeyeq : d.envelope.id = ecaus := (hinv.rec_inv ecaus d hd).key_eq
                  rw [show ({ envelope := d.envelope, attempts := d.attempts.set a .failure } : requestData).envelope.id = d.envelope.id from rfl, hkeyeq]
                  exact proc_dispatch_inv st _ ecaus d a .failure hinv hget (by simp) hd (by simp) ha hlen1 p (by rw [← hpeq]) _ (by rw [hna, hmk])
          · rw [if_neg hb] at hrun
            cases hrun
      | apiTimeout a =>
        have htr := hinv.trigger_after st.processed hp a (by rw [hgp]; rfl)
        rw [hgp] at htr
        obtain ⟨j, hj, hji, hjreq⟩ := htr
        obtain ⟨hjc, hjev⟩ := isApiRequestFor_spec _ _ _ hjreq
        have hloc := hinv.req_located j hj a (by rw [hjev])
        rw [hjc] at hloc
        rcases hd : lookupReq st.proc.requests ecaus with _ | d
        · rw [show (⟨eid, ecaus, .apiTimeout a ⟩ : SysEnvelope).causationID = ecaus from rfl, hd] at hloc
          simp at hloc
        · have hc0 : ¬ ecaus = 0 := by
            have := (hinv.rec_key ecaus d hd).1
            omega
          have ha : a < processedApiReqs st ecaus :=
            attempt_lt_processed st ecaus a j hj (by
              have := (hinv.rec_key ecaus d hd).2
              omega) (by rw [show (⟨eid, ecaus, .apiTimeout a ⟩ : SysEnvelope).causationID = ecaus from rfl] at hjreq; exact hjreq)
              (hinv.rec_inv ecaus d hd).disp
          have hcf : caughtUpFor st ecaus = true := by
            rw [caughtUpNow, hget] at hcaught
            exact hcaught
          have hmk : processedApiReqs st ecaus = (apiRequestAttempts st.log ecaus).length :=
            caughtUp_consumed_all st ecaus hcf
          unfold handleEvent at hrun
          dsimp only at hrun
          rw [if_neg hc0, hd] at hrun
          dsimp only at hrun
          by_cases hb : a < d.attempts.length
          · rw [dif_pos hb] at hrun
            by_cases hpend : d.attempts.get ⟨a, hb⟩ ≠ .pending
            · rw [if_pos hpend] at hrun
              obtain ⟨hpeq, houts⟩ := some_pair_inj hrun
              subst houts
              rw [appendInserts_nil]
              exact proc_no_update_inv st p _ hinv hget (by rw [← hpeq]) (by simp)
            · rw [if_neg hpend] at hrun
              by_cases h1 : a = ({ envelope := d.envelope, attempts := d.attempts.set a .timeout } : requestData).retriesOf
              · rw [if_pos h1] at hrun
                obtain ⟨hpeq, houts⟩ := some_pair_inj hrun
                subst houts
                rw [appendInserts_nil]
                exact proc_update_inv st _ ecaus d a .timeout hinv hget (by simp) hd (by simp) ha p (by rw [← hpeq])
              · rw [if_neg h1] at hrun
                by_cases h2 : a + 1 ≠ nextAttempt { envelope := d.envelope, attempts := d.attempts.set a .timeout }
                · rw [if_pos h2] at hrun
                  obtain ⟨hpeq, houts⟩ := some_pair_inj hrun
                  subst houts
                  rw [appendInserts_nil]
                  exact proc_update_inv st _ ecaus d a .timeout hinv hget (by simp) hd (by simp) ha p (by rw [← hpeq])
                · rw [if_neg h2] at hrun
                  by_cases h3 : succeeded { envelope := d.envelope, attempts := d.attempts.set a .timeout } = true
                  · rw [if_pos h3] at hrun
                    obtain ⟨hpeq, houts⟩ := some_pair_inj hrun
                    subst houts
                    rw [appendInserts_nil]
                    exact proc_update_inv st _ ecaus d a .timeout hinv hget (by simp) hd (by simp) ha p (by rw [← hpeq])
                  · rw [if_neg h3] at hrun
                    obtain ⟨pp, hpp⟩ := (hinv.rec_inv ecaus d hd).key_req
                    rw [show ({ envelope := d.envelope, attempts := d.attempts.set a .timeout } : requestData).envelope.event = d.envelope.event from rfl, hpp] at hrun
                    dsimp only at hrun
                    obtain ⟨hpeq, houts⟩ := some_pair_inj hrun
                    subst houts
                    have hiff := (hinv.rec_inv ecaus d hd).attempts_iff
                    have hle := (hinv.rec_inv ecaus d hd).disp_le
                    have hna : nextAttempt { envelope := d.envelope, attempts := d.attempts.set a .timeout } = processedApiReqs st ecaus := by
                      rw [nextAttempt]
                      rw [show ({ envelope := d.envelope, attempts := d.attempts.set a .timeout } : requestData).attempts = d.attempts.set a .timeout from rfl]
                      rw [nextAttemptAux_min (d.attempts.set a .timeout) (processedApiReqs st ecaus) (set_attempts_iff d.attempts a .timeout (processedApiReqs st ecaus) (by simp) ha hiff)]
                      rw [List.length_set]
                      exact min_eq_left (by omega)
                    have hretr : ({ envelope := d.envelope, attempts := d.attempts.set a .timeout } : requestData).retriesOf = d.attempts.length - 1 := by
                      rw [requestData.retriesOf]
                      simp
                    have hak : a + 1 = (apiRequestAttempts st.log ecaus).length := by
                      push_neg at h2
                      rw [h2, hna, hmk]
                    have hlen1 : (apiRequestAttempts st.log ecaus).length + 1 ≤ d.attempts.length := by
                      rw [hretr] at h1
                      omega
                    rw [appendInserts_single]
                    have hkeyeq : d.envelope.id = ecaus := (hinv.rec_inv ecaus d hd).key_eq
                    rw [show ({ envelope := d.envelope, attempts := d.attempts.set a .timeout } : requestData).envelope.id = d.envelope.id from rfl, hkeyeq]
                    exact proc_dispatch_inv st _ ecaus d a .timeout hinv hget (by simp) hd (by simp) ha hlen1 p (by rw [← hpeq]) _ (by rw [hna, hmk])
          · rw [dif_neg hb] at hrun
            cases hrun

theorem initialSys_inv : SysInv initialSys := by
  refine ⟨by simp [initialSys], ?_, ?_, ?_, ?_, ?_⟩
  · intro i h
    simp [initialSys] at h
  · intro r d hd
    simp [initialSys, lookupReq, List.lookup] at hd
  · intro r d hd
    simp [initialSys, lookupReq, List.lookup] at hd
  · intro i h
    simp [initialSys] at h
  · intro i h
    simp [initialSys] at h

theorem runSteps_inv : ∀ (steps : List SysStep) (st st1 : SysState),
    SysInv st → envValidB st steps = true → caughtUpB st steps = true →
    runSteps st steps = some st1 → SysInv st1 := by
  intro steps
  induction steps with
  | nil =>
    intro st st1 hinv _ _ hrun
    rw [runSteps] at hrun
    cases Option.some.inj hrun
    exact hinv
  | cons stp rest ih =>
    intro st st1 hinv hval hcaught hrun
    rw [runSteps] at hrun
    rcases hdo : doStep st stp with _ | st2
    · rw [hdo] at hrun
      cases hrun
    · rw [hdo] at hrun
      dsimp only at hrun
      rw [envValidB.eq_def] at hval
      rw [caughtUpB.eq_def] at hcaught
      dsimp only at hval hcaught
      rw [hdo] at hval hcaught
      simp only [Bool.and_eq_true] at hval hcaught
      have hinv2 : SysInv st2 := by
        cases stp with
        | envInsert e caus =>
          have hok : envOk st e caus = true := hval.1
          have hshape : st2 =
              { st with log := st.log ++ [⟨(st.log.length : Int) + 1, caus, e⟩] } := by
            rw [doStep] at hdo
            exact (Option.some.inj hdo).symm
          rw [hshape]
          exact envStep_inv st e caus hinv hok
        | procStep =>
          exact procStep_inv st st2 hinv hcaught.1 hdo
      exact ih st2 st1 hinv2 hval.2 hcaught.2 hrun

/-- C5 (amended): on every valid closed-loop run in which the processor has
consumed each `APIRequest` it inserted for a request before it consumes any
`APIFailure`/`APITimeout` for that request, the `APIRequest` events
dispatched for each tracked request `r` carry exactly the attempt indices
`0, 1, 2, …` in order, without repetition or skipping, and their number
never exceeds the request's slot count `retries+1` (the retry budget in
effect when `r`'s `Request` event was consumed, see `newRequestData`). -/
theorem processor_dispatch_bound (steps : List SysStep) (st1 : SysState)
    (hval : envValidB initialSys steps = true)
    (hcaught : caughtUpB initialSys steps = true)
    (hrun : runSteps initialSys steps = some st1) :
    ∀ r d, lookupReq st1.proc.requests r = some d →
      apiRequestAttempts st1.log r =
        List.range (apiRequestAttempts st1.log r).length ∧
      (apiRequestAttempts st1.log r).length ≤ d.attempts.length := by
  intro r d hd
  have hinv := runSteps_inv steps initialSys st1 initialSys_inv hval hcaught hrun
  exact ⟨(hinv.rec_inv r d hd).disp, (hinv.rec_inv r d hd).disp_le⟩

/-- Witness for `processor_dispatch_bound` on the concrete trace `wSteps`:
request 2 gets exactly the attempt indices `[0, 1]`, within its two
slots. -/
theorem processor_dispatch_bound_witness :
    apiRequestAttempts wFinal.log 2 =
      List.range (apiRequestAttempts wFinal.log 2).length ∧
    (apiRequestAttempts wFinal.log 2).length ≤
      ([requestState.failure, requestState.pending] : List requestState).length :=
  processor_dispatch_bound wSteps wFinal (by decide) (by decide) (by rfl) 2
    ⟨⟨2, 0, .request "x"⟩, [.failure, .pending]⟩ (by rfl)


end ApiBroker
